import Mathlib

/-!
Verification of the RetroVoid library-scanning core
(`src-tauri/src/commands/mod.rs`) against its design specification.

The Rust source is shallowly embedded: pure string helpers become Lean
functions on `List Char` / `String`, the stateful `scan_library` command
becomes explicit state passing over a scan-state record, the SQLite
catalog becomes an association list keyed by ROM path, and fallible
filesystem / database calls are driven by boolean oracles supplied in an
environment record.  Recursions that are not structural are implemented
with an explicit fuel argument initialised to the list length (each step
consumes at least one character, so the fuel never runs out); this keeps
every definition executable by kernel reduction.
-/

namespace RetroVoid

/-! ## Character and string helpers

`isWs` models the regex class `\s` and Rust's `char::is_whitespace`
(restricted to the ASCII whitespace characters).  `isDigitC` models
`\d`. -/

def isWs (c : Char) : Bool := c.isWhitespace

def isDigitC (c : Char) : Bool := c.isDigit

/-! ## `clean_rom_title`

The Rust function applies `Regex::replace_all` for the three patterns
`\s*\([^)]*\)`, `\s*\[[^\]]*\]`, `\s*\{[^}]*\}` in that order, then
collapses whitespace with `split_whitespace().join(" ")`.

For a pattern `\s*OP[^CL]*CL` a match attempt at a position is
deterministic: the greedy `\s*` must stop at the first non-whitespace
character, which must be `OP`; the greedy `[^CL]*` must stop at the first
`CL` after it.  `replace_all` replaces the leftmost match and resumes
scanning after it, which `replPat` reproduces by trying a match at every
position from the left and jumping over matched spans. -/

/-- After the opening bracket of `\s*OP[^CL]*CL` has been consumed:
consume `[^CL]*CL`, i.e. skip to the first `cl` and return the remainder
after it (`none` when no `cl` follows). -/
def afterOpen (cl : Char) : List Char → Option (List Char)
  | [] => none
  | c :: r => if c = cl then some r else afterOpen cl r

/-- Attempt to match `\s*OP[^CL]*CL` at the head of the list, returning
the remainder after the match. -/
def tryPat (op cl : Char) : List Char → Option (List Char)
  | [] => none
  | c :: r => if isWs c then tryPat op cl r else if c = op then afterOpen cl r else none

/-- Fuelled worker for `Regex::replace_all` of `\s*OP[^CL]*CL` with the
empty replacement: leftmost match, remove, resume after the removed
span.  Each step consumes at least one character, so fuel `l.length`
suffices. -/
def replPatF (op cl : Char) : Nat → List Char → List Char
  | 0, l => l
  | _ + 1, [] => []
  | fuel + 1, c :: rest =>
    match tryPat op cl (c :: rest) with
    | some r => replPatF op cl fuel r
    | none => c :: replPatF op cl fuel rest

/-- `Regex::replace_all` for pattern `\s*OP[^CL]*CL` with the empty
replacement. -/
def replPat (op cl : Char) (l : List Char) : List Char := replPatF op cl l.length l

/-- No opening bracket is later followed by its closing bracket: the
pattern `\s*OP[^CL]*CL` then has no match anywhere in the list. -/
def noPair (op cl : Char) : List Char → Prop
  | [] => True
  | c :: r => (c = op → cl ∉ r) ∧ noPair op cl r

/-! ### Whitespace collapsing: `split_whitespace().join(" ")` -/

/-- Rust `Vec::join(" ")` on character lists. -/
def joinSp : List (List Char) → List Char
  | [] => []
  | [w] => w
  | w :: ws => w ++ ' ' :: joinSp ws

/-- Fuelled worker for `str::split_whitespace`: maximal runs of
non-whitespace characters, in order, empty runs dropped. -/
def wordsF : Nat → List Char → List (List Char)
  | 0, _ => []
  | _ + 1, [] => []
  | fuel + 1, c :: r =>
    if isWs c then wordsF fuel r
    else (c :: r.takeWhile (fun x => !isWs x)) :: wordsF fuel (r.dropWhile (fun x => !isWs x))

/-- Rust `str::split_whitespace` on character lists. -/
def words (l : List Char) : List (List Char) := wordsF l.length l

/-- Collapse consecutive whitespace to single spaces and trim ends. -/
def collapseWs (l : List Char) : List Char := joinSp (words l)

/-- `clean_rom_title` from `commands/mod.rs`: remove `(...)`, `[...]`,
`{...}` tags (with leading whitespace) in that order, then collapse
whitespace. -/
def clean_rom_title (s : String) : String :=
  (collapseWs (replPat '{' '}' (replPat '[' ']' (replPat '(' ')' s.data)))).asString

/-! ## Disc-set detection: `get_disc_number` / `get_base_game_name`

The Rust functions try a fixed ordered list of case-insensitive regex
patterns.  Every pattern is deterministic once the position is fixed
(each `\s*` must stop at the first non-matching character, `\d+` is a
maximal digit run followed by a non-digit), except for the optional
`(?:\s*of\s*\d+)?` group which is tried greedily first and dropped if the
closing bracket does not follow.  Each pattern is embedded as a matcher
`List Char → Option (Nat × List Char)` returning the captured number and
the remainder after the match. -/

/-- Rust `str::to_lowercase` (on the ASCII range relevant here). -/
def toLowerStr (s : String) : String := (s.data.map Char.toLower).asString

/-- Case-insensitive literal: consume `kw` (given lowercase) from the
head, comparing lowercased characters. -/
def litCI : List Char → List Char → Option (List Char)
  | [], l => some l
  | _ :: _, [] => none
  | k :: ks, c :: r => if c.toLower = k then litCI ks r else none

/-- Value of a digit run, as `str::parse` reads it. -/
def digitsVal (ds : List Char) : Nat := ds.foldl (fun a c => a * 10 + (c.toNat - 48)) 0

/-- Consume `(\d+)`: maximal nonempty digit run. -/
def digits1 (l : List Char) : Option (Nat × List Char) :=
  match l.takeWhile isDigitC with
  | [] => none
  | ds => some (digitsVal ds, l.dropWhile isDigitC)

/-- Consume `[\)\]]`. -/
def closeBr : List Char → Option (List Char)
  | [] => none
  | c :: r => if c = ')' ∨ c = ']' then some r else none

/-- `[\(\[]\s*KW\s*(\d+)(?:\s*of\s*\d+)?[\)\]]` (the `of` part only when
`allowOf`), matched at the head of the list. -/
def matchBracket (kw : List Char) (allowOf : Bool) : List Char → Option (Nat × List Char)
  | [] => none
  | c :: r =>
    if c = '(' ∨ c = '[' then
      match litCI kw (r.dropWhile isWs) with
      | none => none
      | some r2 =>
        match digits1 (r2.dropWhile isWs) with
        | none => none
        | some (v, r3) =>
          let withOf :=
            if allowOf then
              match litCI ['o', 'f'] (r3.dropWhile isWs) with
              | none => none
              | some r4 =>
                match digits1 (r4.dropWhile isWs) with
                | none => none
                | some (_, r5) => closeBr r5
            else none
          match withOf with
          | some rem => some (v, rem)
          | none =>
            match closeBr r3 with
            | some rem => some (v, rem)
            | none => none
    else none

/-- `\s*-\s*KW\s*(\d+)`, matched at the head of the list. -/
def matchHyphen (kw : List Char) (l : List Char) : Option (Nat × List Char) :=
  match l.dropWhile isWs with
  | [] => none
  | c :: r1 =>
    if c = '-' then
      match litCI kw (r1.dropWhile isWs) with
      | none => none
      | some r2 => digits1 (r2.dropWhile isWs)
    else none

/-- `\s+KW\s*(\d+)$`, matched at the head of the list (the match must
reach the end of the string). -/
def matchTrailing (kw : List Char) : List Char → Option (Nat × List Char)
  | [] => none
  | c :: r =>
    if isWs c then
      match litCI kw (r.dropWhile isWs) with
      | none => none
      | some r2 =>
        match digits1 (r2.dropWhile isWs) with
        | none => none
        | some (v, r3) => if r3.isEmpty then some (v, []) else none
    else none

/-- `_KW(\d+)`, matched at the head of the list. -/
def matchUnderscore (kw : List Char) : List Char → Option (Nat × List Char)
  | [] => none
  | c :: r =>
    if c = '_' then
      match litCI kw r with
      | none => none
      | some r2 => digits1 r2
    else none

/-- Leftmost match of a regex pattern: try the matcher at every position
from the left, return the first captured value. -/
def scanFirst (m : List Char → Option (Nat × List Char)) : List Char → Option Nat
  | [] => (m []).map (fun p => p.1)
  | c :: r =>
    match m (c :: r) with
    | some p => some p.1
    | none => scanFirst m r

/-- Fuelled worker for `Regex::replace_all` with the empty replacement:
leftmost match removed, scanning resumes after the removed span.  Every
matcher consumes at least one character, so fuel `l.length` suffices. -/
def removeAllF (m : List Char → Option (Nat × List Char)) : Nat → List Char → List Char
  | 0, l => l
  | _ + 1, [] => []
  | fuel + 1, c :: r =>
    match m (c :: r) with
    | some p => removeAllF m fuel p.2
    | none => c :: removeAllF m fuel r

/-- `Regex::replace_all` with the empty replacement. -/
def removeAll (m : List Char → Option (Nat × List Char)) (l : List Char) : List Char :=
  removeAllF m l.length l

/-- The eleven disc-indicator patterns of `get_disc_number` /
`get_base_game_name`, in source order. -/
def discPatterns : List (List Char → Option (Nat × List Char)) :=
  [ matchBracket ['d', 'i', 's', 'c'] true,
    matchBracket ['d', 'i', 's', 'k'] true,
    matchBracket ['c', 'd'] false,
    matchHyphen ['d', 'i', 's', 'c'],
    matchHyphen ['d', 'i', 's', 'k'],
    matchHyphen ['c', 'd'],
    matchTrailing ['d', 'i', 's', 'c'],
    matchTrailing ['d', 'i', 's', 'k'],
    matchTrailing ['c', 'd'],
    matchUnderscore ['d', 'i', 's', 'c'],
    matchUnderscore ['c', 'd'] ]

/-- Try the patterns in order; the first pattern that matches yields the
captured number, skipped when it does not fit in a `u32` (`parse::<u32>`
failure falls through to the next pattern). -/
def findDisc : List (List Char → Option (Nat × List Char)) → List Char → Option Nat
  | [], _ => none
  | m :: ms, l =>
    match scanFirst m l with
    | some v => if v < 4294967296 then some v else findDisc ms l
    | none => findDisc ms l

/-- `get_disc_number` from `commands/mod.rs`: lowercase the stem, then
try the disc-indicator patterns in order. -/
def get_disc_number (filename : String) : Option Nat :=
  findDisc discPatterns (toLowerStr filename).data

/-- Rust `str::trim` (whitespace from both ends). -/
def trimWs (l : List Char) : List Char :=
  ((l.dropWhile isWs).reverse.dropWhile isWs).reverse

/-- `get_base_game_name` from `commands/mod.rs`: remove every
disc-indicator match of each pattern in order (case-insensitively, on
the original string), then trim surrounding whitespace. -/
def get_base_game_name (filename : String) : String :=
  (trimWs (discPatterns.foldl (fun acc m => removeAll m acc) filename.data)).asString

/-- `is_disc_extension` from `commands/mod.rs`. -/
def is_disc_extension (ext : String) : Bool :=
  ext == ".cue" || ext == ".iso" || ext == ".chd" || ext == ".mdf" ||
    ext == ".nrg" || ext == ".img" || ext == ".ccd"

/-! ## Path platform hinter: `detect_platform_from_path` -/

/-- Split on `/` and `\` separators, keeping empty segments, as
`str::split(['/', '\\'])` does. -/
def splitSeps : List Char → List (List Char)
  | [] => [[]]
  | c :: r =>
    match splitSeps r with
    | f :: fs => if c = '/' ∨ c = '\\' then [] :: f :: fs else (c :: f) :: fs
    | [] => [[c]]

/-- `str::contains` for a character-list needle. -/
def containsSub : List Char → List Char → Bool
  | _, [] => true
  | [], _ :: _ => false
  | c :: r, sub => sub.isPrefixOf (c :: r) || containsSub r sub

/-- The four-way segment/keyword match rule of
`detect_platform_from_path`: exact equality, contains `"<kw> "`,
contains `" <kw>"`, starts with `"<kw>_"`, or ends with `"_<kw>"`. -/
def segMatches (part kw : List Char) : Bool :=
  part == kw ||
    containsSub part (kw ++ [' ']) ||
    containsSub part ([' '] ++ kw) ||
    (kw ++ ['_']).isPrefixOf part ||
    (['_'] ++ kw).isSuffixOf part

/-- `detect_platform_from_path` from `commands/mod.rs`: lowercase the
path, split into segments, and return the platform id of the first hint
(in table order) with a keyword matching some segment. -/
def detect_platform_from_path (path : String) (hints : List (String × List String)) :
    Option String :=
  let parts := splitSeps (toLowerStr path).data
  (hints.find? (fun h => h.2.any (fun kw => parts.any (fun part => segMatches part kw.data)))).map
    (fun h => h.1)

/-- The fixed platform-hint table built in `scan_library`, in source
order. -/
def platform_hints : List (String × List String) :=
  [ ("ps2", ["ps2", "playstation 2", "playstation2", "sony ps2"]),
    ("ps1", ["ps1", "psx", "playstation 1", "playstation1", "psone"]),
    ("psp", ["psp", "playstation portable"]),
    ("ps3", ["ps3", "playstation 3", "playstation3"]),
    ("vita", ["vita", "psvita", "ps vita"]),
    ("gamecube", ["gamecube", "gcn", "ngc", "nintendo gamecube"]),
    ("wii", ["wii", "nintendo wii"]),
    ("switch", ["switch", "nintendo switch", "nx"]),
    ("n64", ["n64", "nintendo 64", "nintendo64"]),
    ("snes", ["snes", "super nintendo", "super nes", "sfc"]),
    ("nes", ["nes", "nintendo entertainment", "famicom"]),
    ("gba", ["gba", "gameboy advance", "game boy advance"]),
    ("gbc", ["gbc", "gameboy color", "game boy color"]),
    ("gb", ["gameboy", "game boy"]),
    ("nds", ["nds", "nintendo ds", "ds"]),
    ("3ds", ["3ds", "nintendo 3ds"]),
    ("genesis", ["genesis", "mega drive", "megadrive", "sega genesis"]),
    ("saturn", ["saturn", "sega saturn"]),
    ("dreamcast", ["dreamcast", "sega dreamcast"]),
    ("xbox", ["xbox", "original xbox"]),
    ("xbox360", ["xbox 360", "xbox360", "x360"]),
    ("arcade", ["arcade", "mame", "fba", "fbneo"]) ]

/-- Platform-id resolution for a discovered file, exactly as inlined in
`scan_library`: caller override wins; a uniquely-mapped extension is
used directly; otherwise the path hinter's answer is used when it is
among the extension's candidates, else the first candidate. -/
def resolvePlatform (overrideId : Option String) (possible : List String) (romPath : String)
    (hints : List (String × List String)) : String :=
  match overrideId with
  | some o => o
  | none =>
    if possible.length = 1 then possible.headD ""
    else
      ((detect_platform_from_path romPath hints).filter (fun d => possible.contains d)).getD
        (possible.headD "")

/-! ## The scan model

`scan_library` is embedded over an explicit world: each scan root
carries the ordered list of regular files its directory walk visits
(directory, file stem, raw extension — matching `file_stem()` /
`extension()`), the catalog is an association list keyed by ROM path
(all `get_game_by_path` reads and `add_game` writes go through it), and
an environment of boolean oracles decides path canonicalisation results
and the fallible calls (catalog query/insert, `.m3u` write). -/

/-- `Path::parent()` as a string operation: everything before the last
`/`. -/
def dirOf (s : String) : String :=
  (((s.data.reverse.dropWhile (fun c => c != '/')).drop 1).reverse).asString

/-- `Path::file_name()`: the component after the last `/`, `none` when
empty. -/
def pathFileName (s : String) : Option String :=
  match (s.data.reverse.takeWhile (fun c => c != '/')).reverse with
  | [] => none
  | n => some n.asString

/-- Stem of a bare file name: everything before the last `.` (the whole
name when it has no dot). -/
def stemOfName (n : List Char) : List Char :=
  if n.contains '.' then ((n.reverse.dropWhile (fun c => c != '.')).drop 1).reverse else n

/-- `Path::file_stem().unwrap_or("Unknown")` as used on `.m3u` paths. -/
def pathFileStem (s : String) : String :=
  match pathFileName s with
  | none => "Unknown"
  | some n => (stemOfName n.data).asString

/-- Raw extension of a bare file name: everything after the last `.`. -/
def extOfName (n : List Char) : Option String :=
  if n.contains '.' then some ((n.reverse.takeWhile (fun c => c != '.')).reverse.asString)
  else none

/-- A platform configuration record (`models.rs`), restricted to the
fields the scanner reads. -/
structure Platform where
  id : String
  file_extensions : List String
deriving DecidableEq

/-- One regular file visited by the `WalkDir` traversal of a root:
containing directory, `file_stem()` and raw `extension()`. -/
structure FsEntry where
  dir : String
  stem : String
  ext : Option String
deriving DecidableEq

/-- The file's name, as `file_name()` reports it. -/
def FsEntry.name (e : FsEntry) : String :=
  e.stem ++ (match e.ext with | some x => "." ++ x | none => "")

/-- The file's path (directory join). -/
def FsEntry.path (e : FsEntry) : String := e.dir ++ "/" ++ e.name

/-- One element of the `paths: Vec<ScanPath>` argument together with the
filesystem state under it: whether the root exists and the files the
walk yields. -/
structure ScanRoot where
  path : String
  platform_id : Option String
  rootExists : Bool
  files : List FsEntry

/-- Oracles for the environment-dependent calls of the scan:
`canon` is `Path::canonicalize` (with its fallback already folded in:
the function is total and returns the fallback string on failure);
the three `Fails` oracles decide, per path, whether the catalog query,
the catalog insert, or the playlist `fs::write` fails. -/
structure Env where
  canon : String → String
  queryFails : String → Bool
  insertFails : String → Bool
  writeFails : String → Bool

/-- A catalog row, restricted to the fields the scanner writes. -/
structure GameEntry where
  title : String
  platform_id : String
deriving DecidableEq

/-- The games table keyed by `rom_path` (unique in practice; lookup
returns the first match like the SQL query does). -/
abbrev Catalog := List (String × GameEntry)

/-- `get_game_by_path`. -/
def lookupCat (cat : Catalog) (p : String) : Option GameEntry :=
  (cat.find? (fun e => e.1 == p)).map (fun e => e.2)

/-- `add_game` (INSERT). -/
def addCat (cat : Catalog) (p : String) (g : GameEntry) : Catalog := cat ++ [(p, g)]

/-- The mutable scan state: the `ScanResult` accumulator
(`games_found`, `games_added`, `games_updated`, `errors`) together with
the threaded catalog and the list of `.m3u` files written to disk. -/
structure ScanSt where
  games_found : Nat
  games_added : Nat
  games_updated : Nat
  errors : List String
  cat : Catalog
  writes : List (String × String)
deriving DecidableEq

def pushErr (m : String) (st : ScanSt) : ScanSt := { st with errors := st.errors ++ [m] }

/-- `DiscoveredFile` from `commands/mod.rs`. -/
structure DiscoveredFile where
  path : String
  extension : String
  platform_id : String
  disc_number : Option Nat
  base_name : String
deriving DecidableEq

/-- Build `ext_to_platforms`: push `v` onto the entry for key `k`
(insertion order of keys preserved, ids appended in encounter order). -/
def addExt (m : List (String × List String)) (k v : String) : List (String × List String) :=
  if m.any (fun p => p.1 == k) then
    m.map (fun p => if p.1 == k then (p.1, p.2 ++ [v]) else p)
  else m ++ [(k, [v])]

/-- The extension index of `scan_library`: every platform's extensions
(lowercased), then `.m3u` force-registered for the seven disc-based
platform ids. -/
def extIndex (platforms : List Platform) : List (String × List String) :=
  let base := platforms.foldl
    (fun m pl => pl.file_extensions.foldl (fun m e => addExt m (toLowerStr e) pl.id) m) []
  ["ps1", "ps2", "saturn", "dreamcast", "segacd", "pce", "3do"].foldl
    (fun m pid => addExt m ".m3u" pid) base

def lookupExt (idx : List (String × List String)) (k : String) : Option (List String) :=
  (idx.find? (fun p => p.1 == k)).map (fun p => p.2)

/-- The `.bin` suppression test: `read_dir(parent)` finds some sibling
whose extension equals `cue` case-insensitively. -/
def hasCueSibling (files : List FsEntry) (dir : String) : Bool :=
  files.any (fun e =>
    e.dir == dir && (match e.ext with | some x => toLowerStr x == "cue" | none => false))

/-- HashSet insertion. -/
def insertNew (l : List String) (x : String) : List String :=
  if l.contains x then l else l ++ [x]

/-- Phase-1 accumulator: discovered files and the pre-existing `.m3u`
path set. -/
structure DiscSt where
  files : List DiscoveredFile
  existing : List String
deriving DecidableEq

/-- Phase 1, one walk entry: track `.m3u` paths, suppress `.bin` with a
`.cue` sibling, look the extension up in the index, resolve the
platform on the canonicalised path, and run disc detection for
disc-capable extensions. -/
def discoverStep (env : Env) (idx : List (String × List String))
    (hints : List (String × List String)) (overrideId : Option String)
    (allFiles : List FsEntry) (st : DiscSt) (e : FsEntry) : DiscSt :=
  match e.ext with
  | none => st
  | some rawExt =>
    let ext := "." ++ toLowerStr rawExt
    let st1 := if ext == ".m3u" then { st with existing := insertNew st.existing e.path } else st
    if ext == ".bin" && hasCueSibling allFiles e.dir then st1
    else
      match lookupExt idx ext with
      | none => st1
      | some possible =>
        let romStr := env.canon e.path
        let pid := resolvePlatform overrideId possible romStr hints
        let dn := if is_disc_extension ext then get_disc_number e.stem else none
        let bn := if dn.isSome then get_base_game_name e.stem else e.stem
        { st1 with files := st1.files ++ [⟨e.path, ext, pid, dn, bn⟩] }

/-- Phase 1 over the whole walk of one root. -/
def discoverRoot (env : Env) (idx : List (String × List String))
    (hints : List (String × List String)) (root : ScanRoot) : DiscSt :=
  root.files.foldl (discoverStep env idx hints root.platform_id root.files) ⟨[], []⟩

/-- Insert a disc into `multi_disc_groups` under its
`(parent directory, base name)` key. -/
def addGroup (gs : List ((String × String) × List (Nat × String))) (k : String × String)
    (v : Nat × String) : List ((String × String) × List (Nat × String)) :=
  if gs.any (fun g => g.1 == k) then
    gs.map (fun g => if g.1 == k then (g.1, g.2 ++ [v]) else g)
  else gs ++ [(k, [v])]

/-- Phase 2 grouping: every discovered file with a disc number, keyed by
`(parent directory, base name)`, values in discovery order. -/
def buildGroups (files : List DiscoveredFile) :
    List ((String × String) × List (Nat × String)) :=
  files.foldl
    (fun gs f =>
      match f.disc_number with
      | some n => addGroup gs (dirOf f.path, f.base_name) (n, f.path)
      | none => gs) []

/-- `generate_m3u_playlist` content: discs stably sorted ascending by
disc number, one bare file name per line, `\n`-separated. -/
def m3uContent (discs : List (Nat × String)) : String :=
  String.intercalate "\n"
    ((discs.mergeSort (fun a b => decide (a.1 ≤ b.1))).filterMap (fun d => pathFileName d.2))

/-- The target playlist path `<dir>/<base name>.m3u` of a disc group. -/
def m3uPathOf (k : String × String) : String := k.1 ++ "/" ++ k.2 ++ ".m3u"

/-- Phase-2 accumulator: the `generated_m3u_files` set, the error
strings pushed so far, and the files written to disk. -/
structure PlistSt where
  generated : List String
  errs : List String
  writes : List (String × String)
deriving DecidableEq

/-- Phase 2, one disc group: groups of one disc are skipped; a
pre-existing playlist at the exact computed path is reused without a
write; otherwise the playlist is generated (recording the write) or a
per-group error naming the base title is pushed when the write fails. -/
def playlistStep (env : Env) (existing : List String) (st : PlistSt)
    (g : (String × String) × List (Nat × String)) : PlistSt :=
  if g.2.length > 1 then
    let pot := m3uPathOf g.1
    if existing.contains pot then { st with generated := insertNew st.generated pot }
    else if env.writeFails pot then
      { st with errs := st.errs ++ ["Failed to generate .m3u for " ++ g.1.2] }
    else
      { st with generated := insertNew st.generated pot,
                writes := st.writes ++ [(pot, m3uContent g.2)] }
  else st

/-- Phase 2 over all disc groups. -/
def playlistPhase (env : Env) (existing : List String)
    (groups : List ((String × String) × List (Nat × String))) : PlistSt :=
  groups.foldl (playlistStep env existing) ⟨[], [], []⟩

/-- The disc files covered by a playlist: every member of every group
with two or more discs (whether or not the playlist write succeeded). -/
def coveredSet (groups : List ((String × String) × List (Nat × String))) : List String :=
  groups.foldl (fun acc g => if g.2.length > 1 then acc ++ g.2.map (fun d => d.2) else acc) []

/-- Phase 3, one discovered file: covered disc files are skipped (the
source's `.m3u` conditional there has an empty body and no effect);
otherwise `games_found` is bumped, the catalog is queried at the
canonicalised path, and the file is counted as updated, inserted (with
the cleaned base name as title), or recorded as an error. -/
def importFileStep (env : Env) (covered : List String) (st : ScanSt) (f : DiscoveredFile) :
    ScanSt :=
  if covered.contains f.path then st
  else
    let st := { st with games_found := st.games_found + 1 }
    let rom := env.canon f.path
    if env.queryFails rom then pushErr ("Database error for " ++ f.path) st
    else
      match lookupCat st.cat rom with
      | some _ => { st with games_updated := st.games_updated + 1 }
      | none =>
        if env.insertFails rom then pushErr ("Failed to add " ++ f.path) st
        else
          { st with cat := addCat st.cat rom ⟨clean_rom_title f.base_name, f.platform_id⟩,
                    games_added := st.games_added + 1 }

/-- Phase 3, one generated/reused playlist path: platform re-detected
from the playlist's own canonical path with `ps1` fallback; on a fresh
insert both `games_added` and `games_found` are bumped, on a hit only
`games_updated`. -/
def importM3uStep (env : Env) (hints : List (String × List String)) (st : ScanSt)
    (p : String) : ScanSt :=
  let rom := env.canon p
  let pid := (detect_platform_from_path rom hints).getD "ps1"
  if env.queryFails rom then pushErr ("Database error for " ++ p) st
  else
    match lookupCat st.cat rom with
    | some _ => { st with games_updated := st.games_updated + 1 }
    | none =>
      if env.insertFails rom then pushErr ("Failed to add " ++ p) st
      else
        { st with cat := addCat st.cat rom ⟨clean_rom_title (pathFileStem p), pid⟩,
                  games_added := st.games_added + 1,
                  games_found := st.games_found + 1 }

/-- One iteration of the outer `for scan_path in paths` loop of
`scan_library`. -/
def scanRoot (env : Env) (idx : List (String × List String))
    (hints : List (String × List String)) (st : ScanSt) (root : ScanRoot) : ScanSt :=
  if !root.rootExists then pushErr ("Path does not exist: " ++ root.path) st
  else
    let d := discoverRoot env idx hints root
    let groups := buildGroups d.files
    let pl := playlistPhase env d.existing groups
    let st1 := { st with errors := st.errors ++ pl.errs, writes := st.writes ++ pl.writes }
    let st2 := d.files.foldl (importFileStep env (coveredSet groups)) st1
    pl.generated.foldl (importM3uStep env hints) st2

def initSt (cat0 : Catalog) : ScanSt := ⟨0, 0, 0, [], cat0, []⟩

/-- `scan_library`: the extension index and hint table are built once,
then every root is processed in order against the shared result
accumulator and catalog. -/
def scan_library (env : Env) (platforms : List Platform) (roots : List ScanRoot)
    (cat0 : Catalog) : ScanSt :=
  roots.foldl (scanRoot env (extIndex platforms) platform_hints) (initSt cat0)

/-- The filesystem entry created by a playlist write, used to describe
the walk of a re-scan. -/
def entryOfWrite (w : String × String) : FsEntry :=
  { dir := dirOf w.1,
    stem := pathFileStem w.1,
    ext := match pathFileName w.1 with | none => none | some n => extOfName n.data }

/-- The state of a root after the scan's playlist writes land in it. -/
def applyRootWrites (r : ScanRoot) (ws : List (String × String)) : ScanRoot :=
  { r with files := r.files ++ ws.map entryOfWrite }

/-! ## Structural lemmas about the scan folds

The scan state is affine: every step only increments the counters,
appends to the error/write lists, and threads the catalog.  `stShift`
expresses a scan continued from an arbitrary base state in terms of the
same scan started from zero counters on the same catalog. -/

/-- Re-base a scan outcome `out` (produced starting from zero counters,
empty errors/writes and catalog `base.cat`) on top of `base`. -/
def stShift (base out : ScanSt) : ScanSt :=
  { games_found := base.games_found + out.games_found,
    games_added := base.games_added + out.games_added,
    games_updated := base.games_updated + out.games_updated,
    errors := base.errors ++ out.errors,
    cat := out.cat,
    writes := base.writes ++ out.writes }

/-! ## Import-loop lemmas -/

/-- The catalog row the per-file import loop writes for a discovered
file. -/
def importEntry (env : Env) (f : DiscoveredFile) : String × GameEntry :=
  (env.canon f.path, ⟨clean_rom_title f.base_name, f.platform_id⟩)

/-- The catalog row the generated-playlist import loop writes for a
playlist path. -/
def m3uImportEntry (env : Env) (hints : List (String × List String)) (p : String) :
    String × GameEntry :=
  (env.canon p,
    ⟨clean_rom_title (pathFileStem p), (detect_platform_from_path (env.canon p) hints).getD "ps1"⟩)

/-! ## Playlist-phase decomposition

Phase 2 processes each disc group independently of the accumulated
state except for the de-duplicating `generated` set; its error and
write lists decompose as per-group contributions. -/

/-- The `generated_m3u_files` contribution of one disc group. -/
def perGroupGen (env : Env) (existing : List String)
    (g : (String × String) × List (Nat × String)) : List String :=
  if g.2.length > 1 then
    if existing.contains (m3uPathOf g.1) then [m3uPathOf g.1]
    else if env.writeFails (m3uPathOf g.1) then [] else [m3uPathOf g.1]
  else []

/-- The error contribution of one disc group. -/
def perGroupErr (env : Env) (existing : List String)
    (g : (String × String) × List (Nat × String)) : List String :=
  if g.2.length > 1 then
    if existing.contains (m3uPathOf g.1) then []
    else if env.writeFails (m3uPathOf g.1) then
      ["Failed to generate .m3u for " ++ g.1.2]
    else []
  else []

/-- The filesystem-write contribution of one disc group. -/
def perGroupWrites (env : Env) (existing : List String)
    (g : (String × String) × List (Nat × String)) : List (String × String) :=
  if g.2.length > 1 then
    if existing.contains (m3uPathOf g.1) then []
    else if env.writeFails (m3uPathOf g.1) then []
    else [(m3uPathOf g.1, m3uContent g.2)]
  else []

/-! ## Concrete worlds shared by the scenario theorems -/

/-- Deterministic environment: canonicalisation is the identity and no
filesystem or catalog call fails. -/
def envId : Env := ⟨id, fun _ => false, fun _ => false, fun _ => false⟩

/-- One platform claiming `.cue`. -/
def platsCue : List Platform := [⟨"ps1", [".cue"]⟩]

def discEntry1 : FsEntry := ⟨"/r", "Game (Disc 1)", some "cue"⟩

def discEntry2 : FsEntry := ⟨"/r", "Game (Disc 2)", some "cue"⟩

def m3uEntry : FsEntry := ⟨"/r", "Game", some "m3u"⟩

/-- A root holding a two-disc set and no playlist. -/
def rootFresh : ScanRoot := ⟨"/r", none, true, [discEntry1, discEntry2]⟩

/-- The same root with the playlist `Game.m3u` already on disk. -/
def rootPre : ScanRoot := ⟨"/r", none, true, [discEntry1, discEntry2, m3uEntry]⟩

theorem afterOpen_length_lt {cl : Char} :
    ∀ {l r : List Char}, afterOpen cl l = some r → r.length < l.length := by
  intro l
  induction l with
  | nil => intro r h; simp [afterOpen] at h
  | cons c t ih =>
    intro r h
    simp only [afterOpen] at h
    by_cases hc : c = cl
    · rw [if_pos hc] at h
      cases h
      simp
    · rw [if_neg hc] at h
      exact Nat.lt_succ_of_lt (ih h)

theorem tryPat_length_lt {op cl : Char} :
    ∀ {l r : List Char}, tryPat op cl l = some r → r.length < l.length := by
  intro l
  induction l with
  | nil => intro r h; simp [tryPat] at h
  | cons c t ih =>
    intro r h
    simp only [tryPat] at h
    by_cases hw : isWs c = true
    · rw [if_pos hw] at h
      exact Nat.lt_succ_of_lt (ih h)
    · rw [if_neg hw] at h
      by_cases hc : c = op
      · rw [if_pos hc] at h
        exact Nat.lt_succ_of_lt (afterOpen_length_lt h)
      · rw [if_neg hc] at h
        cases h

theorem afterOpen_sublist {cl : Char} :
    ∀ {l r : List Char}, afterOpen cl l = some r → r.Sublist l := by
  intro l
  induction l with
  | nil => intro r h; simp [afterOpen] at h
  | cons c t ih =>
    intro r h
    simp only [afterOpen] at h
    by_cases hc : c = cl
    · rw [if_pos hc] at h
      cases h
      exact List.sublist_cons_self c t
    · rw [if_neg hc] at h
      exact (ih h).trans (List.sublist_cons_self c t)

theorem tryPat_sublist {op cl : Char} :
    ∀ {l r : List Char}, tryPat op cl l = some r → r.Sublist l := by
  intro l
  induction l with
  | nil => intro r h; simp [tryPat] at h
  | cons c t ih =>
    intro r h
    simp only [tryPat] at h
    by_cases hw : isWs c = true
    · rw [if_pos hw] at h
      exact (ih h).trans (List.sublist_cons_self c t)
    · rw [if_neg hw] at h
      by_cases hc : c = op
      · rw [if_pos hc] at h
        exact (afterOpen_sublist h).trans (List.sublist_cons_self c t)
      · rw [if_neg hc] at h
        cases h

theorem replPatF_congr (op cl : Char) :
    ∀ f₁ f₂ : Nat, ∀ l : List Char, l.length ≤ f₁ → l.length ≤ f₂ →
      replPatF op cl f₁ l = replPatF op cl f₂ l := by
  intro f₁
  induction f₁ with
  | zero =>
    intro f₂ l h₁ _
    have : l = [] := List.length_eq_zero.mp (Nat.le_zero.mp h₁)
    subst this
    cases f₂ <;> rfl
  | succ f ih =>
    intro f₂ l h₁ h₂
    cases l with
    | nil => cases f₂ <;> rfl
    | cons c rest =>
      cases f₂ with
      | zero => simp at h₂
      | succ g =>
        simp only [replPatF]
        cases h : tryPat op cl (c :: rest) with
        | some r =>
          have hr : r.length < rest.length + 1 := tryPat_length_lt h
          exact ih g r (Nat.le_of_lt_succ (Nat.lt_of_lt_of_le hr h₁))
            (Nat.le_of_lt_succ (Nat.lt_of_lt_of_le hr h₂))
        | none =>
          have hrest₁ : rest.length ≤ f := Nat.le_of_succ_le_succ h₁
          have hrest₂ : rest.length ≤ g := Nat.le_of_succ_le_succ h₂
          rw [ih g rest hrest₁ hrest₂]

theorem replPatF_eq_replPat {op cl : Char} {f : Nat} {l : List Char}
    (h : l.length ≤ f) : replPatF op cl f l = replPat op cl l :=
  replPatF_congr op cl f l.length l h (Nat.le_refl _)

theorem replPat_nil {op cl : Char} : replPat op cl [] = [] := rfl

theorem replPat_cons_some {op cl c : Char} {rest r : List Char}
    (h : tryPat op cl (c :: rest) = some r) :
    replPat op cl (c :: rest) = replPat op cl r := by
  have hr : r.length ≤ rest.length := Nat.le_of_lt_succ (tryPat_length_lt h)
  unfold replPat
  simp only [List.length_cons, replPatF, h]
  exact replPatF_eq_replPat hr

theorem replPat_cons_none {op cl c : Char} {rest : List Char}
    (h : tryPat op cl (c :: rest) = none) :
    replPat op cl (c :: rest) = c :: replPat op cl rest := by
  unfold replPat
  simp only [List.length_cons, replPatF, h]

theorem replPatF_sublist (op cl : Char) :
    ∀ f : Nat, ∀ l : List Char, (replPatF op cl f l).Sublist l := by
  intro f
  induction f with
  | zero => intro l; exact List.Sublist.refl l
  | succ f ih =>
    intro l
    cases l with
    | nil => exact List.Sublist.refl []
    | cons c rest =>
      simp only [replPatF]
      cases h : tryPat op cl (c :: rest) with
      | some r => exact (ih r).trans (tryPat_sublist h)
      | none => exact (ih rest).cons₂ c

theorem replPat_sublist (op cl : Char) (l : List Char) : (replPat op cl l).Sublist l :=
  replPatF_sublist op cl l.length l

theorem noPair_nil {op cl : Char} : noPair op cl [] := trivial

theorem noPair_of_sublist {op cl : Char} :
    ∀ {l₁ l₂ : List Char}, l₁.Sublist l₂ → noPair op cl l₂ → noPair op cl l₁ := by
  intro l₁ l₂ hs
  induction hs with
  | slnil => intro _; exact trivial
  | cons a _ ih =>
    intro h
    exact ih h.2
  | cons₂ a hs' ih =>
    intro h
    exact ⟨fun ha hm => h.1 ha (hs'.subset hm), ih h.2⟩

theorem afterOpen_none_iff {cl : Char} :
    ∀ {l : List Char}, afterOpen cl l = none ↔ cl ∉ l := by
  intro l
  induction l with
  | nil => simp [afterOpen]
  | cons c t ih =>
    by_cases hc : c = cl
    · simp [afterOpen, hc]
    · simp [afterOpen, hc, ih, Ne.symm hc]

theorem tryPat_some_not_noPair {op cl : Char} :
    ∀ {l r : List Char}, tryPat op cl l = some r → ¬ noPair op cl l := by
  intro l
  induction l with
  | nil => intro r h; simp [tryPat] at h
  | cons c t ih =>
    intro r h hnp
    simp only [tryPat] at h
    by_cases hw : isWs c = true
    · rw [if_pos hw] at h
      exact ih h hnp.2
    · rw [if_neg hw] at h
      by_cases hc : c = op
      · rw [if_pos hc] at h
        have hcl : cl ∈ t := by
          by_contra hmem
          rw [← afterOpen_none_iff] at hmem
          rw [hmem] at h
          cases h
        exact hnp.1 hc hcl
      · rw [if_neg hc] at h
        cases h

theorem noPair_replPatF (op cl : Char) (hop : isWs op = false) :
    ∀ f : Nat, ∀ l : List Char, l.length ≤ f → noPair op cl (replPatF op cl f l) := by
  intro f
  induction f with
  | zero =>
    intro l h
    have : l = [] := List.length_eq_zero.mp (Nat.le_zero.mp h)
    subst this
    exact noPair_nil
  | succ f ih =>
    intro l hlen
    cases l with
    | nil => exact noPair_nil
    | cons c rest =>
      simp only [replPatF]
      cases h : tryPat op cl (c :: rest) with
      | some r =>
        exact ih r (Nat.le_of_lt_succ (Nat.lt_of_lt_of_le (tryPat_length_lt h) hlen))
      | none =>
        have hrest : rest.length ≤ f := Nat.le_of_succ_le_succ hlen
        refine ⟨fun hc hmem => ?_, ih rest hrest⟩
        rw [hc] at h
        have hnone : afterOpen cl rest = none := by
          simpa [tryPat, hop] using h
        exact (afterOpen_none_iff.mp hnone) ((replPatF_sublist op cl f rest).subset hmem)

theorem noPair_replPat (op cl : Char) (hop : isWs op = false) (l : List Char) :
    noPair op cl (replPat op cl l) :=
  noPair_replPatF op cl hop l.length l (Nat.le_refl _)

theorem replPatF_eq_of_noPair {op cl : Char} :
    ∀ f : Nat, ∀ l : List Char, noPair op cl l → replPatF op cl f l = l := by
  intro f
  induction f with
  | zero => intro l _; rfl
  | succ f ih =>
    intro l hnp
    cases l with
    | nil => rfl
    | cons c rest =>
      simp only [replPatF]
      cases h : tryPat op cl (c :: rest) with
      | some r => exact absurd hnp (tryPat_some_not_noPair h)
      | none => rw [ih rest hnp.2]

theorem replPat_eq_of_noPair {op cl : Char} {l : List Char} (hnp : noPair op cl l) :
    replPat op cl l = l :=
  replPatF_eq_of_noPair l.length l hnp

theorem wordsF_congr :
    ∀ f₁ f₂ : Nat, ∀ l : List Char, l.length ≤ f₁ → l.length ≤ f₂ →
      wordsF f₁ l = wordsF f₂ l := by
  intro f₁
  induction f₁ with
  | zero =>
    intro f₂ l h₁ _
    have : l = [] := List.length_eq_zero.mp (Nat.le_zero.mp h₁)
    subst this
    cases f₂ <;> rfl
  | succ f ih =>
    intro f₂ l h₁ h₂
    cases l with
    | nil => cases f₂ <;> rfl
    | cons c rest =>
      cases f₂ with
      | zero => simp at h₂
      | succ g =>
        simp only [wordsF]
        have hrest₁ : rest.length ≤ f := Nat.le_of_succ_le_succ h₁
        have hrest₂ : rest.length ≤ g := Nat.le_of_succ_le_succ h₂
        by_cases hw : isWs c = true
        · rw [if_pos hw, if_pos hw]
          exact ih g rest hrest₁ hrest₂
        · rw [if_neg hw, if_neg hw]
          have hd : (rest.dropWhile (fun x => !isWs x)).length ≤ rest.length :=
            (List.dropWhile_sublist _).length_le
          rw [ih g (rest.dropWhile (fun x => !isWs x)) (Nat.le_trans hd hrest₁)
            (Nat.le_trans hd hrest₂)]

theorem wordsF_eq_words {f : Nat} {l : List Char} (h : l.length ≤ f) :
    wordsF f l = words l :=
  wordsF_congr f l.length l h (Nat.le_refl _)

theorem words_nil : words [] = [] := rfl

theorem words_cons_ws {c : Char} {r : List Char} (h : isWs c = true) :
    words (c :: r) = words r := by
  unfold words
  simp only [List.length_cons, wordsF, if_pos h]

theorem words_cons_not_ws {c : Char} {r : List Char} (h : isWs c = false) :
    words (c :: r) =
      (c :: r.takeWhile (fun x => !isWs x)) :: words (r.dropWhile (fun x => !isWs x)) := by
  unfold words
  have h' : ¬ isWs c = true := by simp [h]
  simp only [List.length_cons, wordsF, if_neg h']
  rw [wordsF_congr r.length (r.dropWhile (fun x => !isWs x)).length _
    ((List.dropWhile_sublist _).length_le) (Nat.le_refl _)]

example : clean_rom_title "Chrono Trigger (USA) [T+Eng1.0]" = "Chrono Trigger" := by decide

/-! ### Idempotence infrastructure for `clean_rom_title` -/

theorem wordsF_mem_spec :
    ∀ f : Nat, ∀ l : List Char, ∀ w ∈ wordsF f l, w ≠ [] ∧ ∀ c ∈ w, isWs c = false := by
  intro f
  induction f with
  | zero => intro l w hw; simp [wordsF] at hw
  | succ f ih =>
    intro l w hw
    cases l with
    | nil => simp [wordsF] at hw
    | cons c r =>
      simp only [wordsF] at hw
      by_cases hc : isWs c = true
      · rw [if_pos hc] at hw
        exact ih r w hw
      · rw [if_neg hc] at hw
        rcases List.mem_cons.mp hw with h | h
        · subst h
          refine ⟨by simp, fun x hx => ?_⟩
          rcases List.mem_cons.mp hx with h' | h'
          · subst h'; simpa using hc
          · have := List.mem_takeWhile_imp h'
            simpa using this
        · exact ih _ w h

theorem words_mem_spec {l : List Char} :
    ∀ w ∈ words l, w ≠ [] ∧ ∀ c ∈ w, isWs c = false :=
  wordsF_mem_spec l.length l

theorem takeWhile_append_all {p : Char → Bool} :
    ∀ w l : List Char, (∀ c ∈ w, p c = true) →
      (w ++ l).takeWhile p = w ++ l.takeWhile p ∧ (w ++ l).dropWhile p = l.dropWhile p := by
  intro w
  induction w with
  | nil => intro l _; simp
  | cons c w' ih =>
    intro l hall
    have hc : p c = true := hall c (List.mem_cons_self c w')
    have ih' := ih l (fun x hx => hall x (List.mem_cons_of_mem c hx))
    constructor
    · simp only [List.cons_append, List.takeWhile_cons, hc, if_true, ih'.1]
    · simp only [List.cons_append, List.dropWhile_cons, hc, if_true, ih'.2]

theorem takeWhile_ws_head {l : List Char}
    (hl : l = [] ∨ ∃ d r, l = d :: r ∧ isWs d = true) :
    l.takeWhile (fun x => !isWs x) = [] ∧ l.dropWhile (fun x => !isWs x) = l := by
  rcases hl with h | ⟨d, r, h, hd⟩
  · subst h; simp
  · subst h
    constructor
    · simp [List.takeWhile_cons, hd]
    · simp [List.dropWhile_cons, hd]

theorem words_word_append {w l : List Char} (hne : w ≠ [])
    (hw : ∀ c ∈ w, isWs c = false)
    (hl : l = [] ∨ ∃ d r, l = d :: r ∧ isWs d = true) :
    words (w ++ l) = w :: words l := by
  cases w with
  | nil => exact absurd rfl hne
  | cons c w' =>
    have hc : isWs c = false := hw c (List.mem_cons_self c w')
    have hw' : ∀ x ∈ w', (fun x => !isWs x) x = true := by
      intro x hx
      simp [hw x (List.mem_cons_of_mem c hx)]
    have happ := takeWhile_append_all w' l hw'
    have hhead := takeWhile_ws_head hl
    rw [List.cons_append, words_cons_not_ws hc, happ.1, happ.2, hhead.1, hhead.2]
    simp

theorem words_joinSp :
    ∀ ws : List (List Char), (∀ w ∈ ws, w ≠ [] ∧ ∀ c ∈ w, isWs c = false) →
      words (joinSp ws) = ws := by
  intro ws
  induction ws with
  | nil => intro _; rfl
  | cons w tail ih =>
    intro hall
    have hw := hall w (List.mem_cons_self w tail)
    cases tail with
    | nil =>
      show words w = [w]
      have := words_word_append hw.1 hw.2 (Or.inl rfl)
      simpa using this
    | cons w' tail' =>
      show words (w ++ ' ' :: joinSp (w' :: tail')) = w :: w' :: tail'
      rw [words_word_append hw.1 hw.2 (Or.inr ⟨' ', joinSp (w' :: tail'), rfl, by decide⟩)]
      rw [words_cons_ws (by decide)]
      rw [ih (fun x hx => hall x (List.mem_cons_of_mem w hx))]

theorem collapseWs_idem (l : List Char) : collapseWs (collapseWs l) = collapseWs l := by
  unfold collapseWs
  rw [words_joinSp (words l) (fun w hw => words_mem_spec w hw)]

theorem flatten_wordsF :
    ∀ f : Nat, ∀ l : List Char, l.length ≤ f →
      (wordsF f l).flatten = l.filter (fun c => !isWs c) := by
  intro f
  induction f with
  | zero =>
    intro l h
    have : l = [] := List.length_eq_zero.mp (Nat.le_zero.mp h)
    subst this
    rfl
  | succ f ih =>
    intro l hlen
    cases l with
    | nil => rfl
    | cons c r =>
      have hr : r.length ≤ f := Nat.le_of_succ_le_succ hlen
      simp only [wordsF]
      by_cases hc : isWs c = true
      · rw [if_pos hc, ih r hr]
        simp [List.filter_cons, hc]
      · rw [if_neg hc]
        have hd : (r.dropWhile (fun x => !isWs x)).length ≤ f :=
          Nat.le_trans (List.dropWhile_sublist _).length_le hr
        simp only [List.flatten_cons, ih _ hd]
        have hsplit : r.filter (fun c => !isWs c) =
            r.takeWhile (fun x => !isWs x) ++
              (r.dropWhile (fun x => !isWs x)).filter (fun c => !isWs c) := by
          conv_lhs => rw [← List.takeWhile_append_dropWhile (fun x => !isWs x) r]
          rw [List.filter_append]
          congr 1
          exact List.filter_eq_self.mpr
            (fun x hx => @List.mem_takeWhile_imp Char (fun c => !isWs c) r x hx)
        have h1 : List.filter (fun c => !isWs c) (c :: r) =
            c :: List.filter (fun c => !isWs c) r := by
          simp [List.filter_cons, hc]
        rw [h1, hsplit]
        simp

theorem flatten_words {l : List Char} :
    (words l).flatten = l.filter (fun c => !isWs c) :=
  flatten_wordsF l.length l (Nat.le_refl _)

theorem filter_joinSp {q : Char → Bool} (hq : q ' ' = false) :
    ∀ ws : List (List Char), (joinSp ws).filter q = ws.flatten.filter q := by
  intro ws
  induction ws with
  | nil => rfl
  | cons w tail ih =>
    cases tail with
    | nil =>
      show List.filter q w = List.filter q [w].flatten
      simp
    | cons w' tail' =>
      show (w ++ ' ' :: joinSp (w' :: tail')).filter q = _
      rw [List.filter_append]
      have hsp : (' ' :: joinSp (w' :: tail')).filter q = (joinSp (w' :: tail')).filter q := by
        simp [List.filter_cons, hq]
      rw [hsp, ih]
      simp [List.filter_append]

theorem noPair_filter_iff {op cl : Char} :
    ∀ l : List Char,
      noPair op cl l ↔ noPair op cl (l.filter (fun c => c == op || c == cl)) := by
  intro l
  induction l with
  | nil => simp [noPair]
  | cons c r ih =>
    by_cases hq : (c == op || c == cl) = true
    · have hfc : List.filter (fun c => c == op || c == cl) (c :: r) =
          c :: List.filter (fun c => c == op || c == cl) r := by
        simp [List.filter_cons, hq]
      rw [hfc]
      show ((c = op → cl ∉ r) ∧ noPair op cl r) ↔
        ((c = op → cl ∉ r.filter (fun c => c == op || c == cl)) ∧
          noPair op cl (r.filter (fun c => c == op || c == cl)))
      have hmem : cl ∈ r.filter (fun c => c == op || c == cl) ↔ cl ∈ r := by
        rw [List.mem_filter]
        simp
      rw [ih, hmem]
    · have hfc : List.filter (fun c => c == op || c == cl) (c :: r) =
          List.filter (fun c => c == op || c == cl) r := by
        simp only [List.filter_cons]
        rw [if_neg hq]
      rw [hfc]
      have hco : c ≠ op := by
        intro h
        subst h
        simp at hq
      show ((c = op → cl ∉ r) ∧ noPair op cl r) ↔ _
      constructor
      · intro h; exact ih.mp h.2
      · intro h; exact ⟨fun hc => absurd hc hco, ih.mpr h⟩

theorem noPair_collapseWs {op cl : Char} (hop : isWs op = false) (hcl : isWs cl = false)
    {l : List Char} (h : noPair op cl l) : noPair op cl (collapseWs l) := by
  have hspace : (' ' == op || ' ' == cl) = false := by
    have h1 : ' ' ≠ op := by
      intro he
      rw [← he] at hop
      simp [isWs] at hop
    have h2 : ' ' ≠ cl := by
      intro he
      rw [← he] at hcl
      simp [isWs] at hcl
    simp [h1, h2]
  have hfil : (collapseWs l).filter (fun c => c == op || c == cl) =
      l.filter (fun c => c == op || c == cl) := by
    unfold collapseWs
    rw [filter_joinSp hspace, flatten_words, List.filter_filter]
    refine List.filter_congr ?_
    intro x _
    by_cases hx : (x == op || x == cl) = true
    · rw [hx]
      have : isWs x = false := by
        rcases (by simpa using hx : x = op ∨ x = cl) with h' | h'
        · rw [h']; exact hop
        · rw [h']; exact hcl
      simp [this]
    · simp at hx
      simp [hx]
  rw [noPair_filter_iff] at h ⊢
  rw [hfil]
  exact h

/-- **C10.** Title cleaning is idempotent: applying `clean_rom_title`
(the `(...)`, `[...]`, `{...}` tag removal in that order followed by
whitespace collapsing) to its own output returns the output unchanged,
for every input string. -/
theorem clean_rom_title_idempotent (s : String) :
    clean_rom_title (clean_rom_title s) = clean_rom_title s := by
  unfold clean_rom_title
  have hdata : ∀ l : List Char, (l.asString).data = l := fun l => rfl
  rw [hdata]
  have npA := noPair_replPat '(' ')' (by decide) s.data
  have npB1 := noPair_of_sublist (replPat_sublist '[' ']' (replPat '(' ')' s.data)) npA
  have npC1 := noPair_of_sublist
    (replPat_sublist '{' '}' (replPat '[' ']' (replPat '(' ')' s.data))) npB1
  have npt1 := noPair_collapseWs (by decide) (by decide) npC1
  have npB2 := noPair_replPat '[' ']' (by decide) (replPat '(' ')' s.data)
  have npC2 := noPair_of_sublist
    (replPat_sublist '{' '}' (replPat '[' ']' (replPat '(' ')' s.data))) npB2
  have npt2 := noPair_collapseWs (by decide) (by decide) npC2
  have npC3 := noPair_replPat '{' '}' (by decide) (replPat '[' ']' (replPat '(' ')' s.data))
  have npt3 := noPair_collapseWs (by decide) (by decide) npC3
  rw [replPat_eq_of_noPair npt1, replPat_eq_of_noPair npt2, replPat_eq_of_noPair npt3,
    collapseWs_idem]

/-- **C5.** Disc detection round-trip on the spec's example stem:
`get_disc_number` extracts disc number 2 and `get_base_game_name`
strips the disc tag, leaving exactly the base title. -/
theorem get_disc_number_base_title_round_trip :
    get_disc_number "Final Fantasy IX (Disc 2 of 4)" = some 2 ∧
      get_base_game_name "Final Fantasy IX (Disc 2 of 4)" = "Final Fantasy IX" := by
  constructor
  · decide
  · decide

/-- **C4.** Platform resolution rule order: a caller override is used
unconditionally; a uniquely-mapped extension uses its only candidate;
with several candidates the path hinter's answer is used exactly when it
belongs to the candidate set and otherwise the first declared candidate
is used; and on the spec's `.iso` examples with candidates
`[ps2, gamecube]` the segment `"PS2 Games"` resolves to `ps2` while a
hint-free path resolves to the first declared candidate `ps2`. -/
theorem resolvePlatform_rule_order :
    (∀ (o : String) (possible : List String) (rom : String)
        (hints : List (String × List String)),
      resolvePlatform (some o) possible rom hints = o) ∧
    (∀ (p rom : String) (hints : List (String × List String)),
      resolvePlatform none [p] rom hints = p) ∧
    (∀ (possible : List String) (rom : String) (hints : List (String × List String))
        (d : String), 2 ≤ possible.length →
      detect_platform_from_path rom hints = some d → d ∈ possible →
      resolvePlatform none possible rom hints = d) ∧
    (∀ (possible : List String) (rom : String) (hints : List (String × List String)),
      2 ≤ possible.length →
      (∀ d, detect_platform_from_path rom hints = some d → d ∉ possible) →
      resolvePlatform none possible rom hints = possible.headD "") ∧
    resolvePlatform none ["ps2", "gamecube"] "/roms/PS2 Games/game.iso" platform_hints
      = "ps2" ∧
    resolvePlatform none ["ps2", "gamecube"] "/data/other/game.iso" platform_hints = "ps2" := by
  refine ⟨fun o possible rom hints => rfl, fun p rom hints => rfl, ?_, ?_, by decide, by decide⟩
  · intro possible rom hints d hlen hdet hmem
    unfold resolvePlatform
    have hne : ¬ possible.length = 1 := by omega
    rw [if_neg hne, hdet]
    simp [Option.filter, hmem]
  · intro possible rom hints hlen hnot
    unfold resolvePlatform
    have hne : ¬ possible.length = 1 := by omega
    rw [if_neg hne]
    cases hdet : detect_platform_from_path rom hints with
    | none => rfl
    | some d =>
      have hd : d ∉ possible := hnot d hdet
      simp [Option.filter, hd]

/-- Witness for the platform-resolution theorem: the override rule, the
hinter rule (on the spec's `"PS2 Games"` example) and the fallback rule,
each applied at concrete inputs. -/
theorem resolvePlatform_rule_order_witness :
    resolvePlatform (some "snes") ["ps2", "gamecube"] "/x/y.iso" platform_hints = "snes" ∧
      resolvePlatform none ["ps2", "gamecube"] "/roms/PS2 Games/game.iso" platform_hints
        = "ps2" :=
  ⟨resolvePlatform_rule_order.1 "snes" ["ps2", "gamecube"] "/x/y.iso" platform_hints,
    resolvePlatform_rule_order.2.2.1 ["ps2", "gamecube"] "/roms/PS2 Games/game.iso"
      platform_hints "ps2" (by decide) (by decide) (by decide)⟩

theorem stShift_init (base : ScanSt) : stShift base (initSt base.cat) = base := by
  simp [stShift, initSt]

theorem importFileStep_shift (env : Env) (covered : List String) (base st : ScanSt)
    (f : DiscoveredFile) :
    importFileStep env covered (stShift base st) f = stShift base (importFileStep env covered st f) := by
  unfold importFileStep
  by_cases h1 : covered.contains f.path = true
  · simp only [h1]
    simp
  · rw [Bool.not_eq_true] at h1
    by_cases h2 : env.queryFails (env.canon f.path) = true
    · simp only [h1, h2]
      simp [stShift, pushErr, Nat.add_assoc]
    · rw [Bool.not_eq_true] at h2
      cases hl : lookupCat st.cat (env.canon f.path) with
      | some g =>
        have hl' : lookupCat (stShift base st).cat (env.canon f.path) = some g := hl
        simp only [h1, h2, hl, hl']
        simp [stShift, Nat.add_assoc]
      | none =>
        have hl' : lookupCat (stShift base st).cat (env.canon f.path) = none := hl
        by_cases h3 : env.insertFails (env.canon f.path) = true
        · simp only [h1, h2, hl, hl', h3]
          simp [stShift, pushErr, Nat.add_assoc]
        · rw [Bool.not_eq_true] at h3
          simp only [h1, h2, hl, hl', h3]
          simp [stShift, pushErr, Nat.add_assoc]

theorem importM3uStep_shift (env : Env) (hints : List (String × List String))
    (base st : ScanSt) (p : String) :
    importM3uStep env hints (stShift base st) p = stShift base (importM3uStep env hints st p) := by
  unfold importM3uStep
  by_cases h2 : env.queryFails (env.canon p) = true
  · simp only [h2]
    simp [stShift, pushErr, Nat.add_assoc]
  · rw [Bool.not_eq_true] at h2
    cases hl : lookupCat st.cat (env.canon p) with
    | some g =>
      have hl' : lookupCat (stShift base st).cat (env.canon p) = some g := hl
      simp only [h2, hl, hl']
      simp [stShift, Nat.add_assoc]
    | none =>
      have hl' : lookupCat (stShift base st).cat (env.canon p) = none := hl
      by_cases h3 : env.insertFails (env.canon p) = true
      · simp only [h2, hl, hl', h3]
        simp [stShift, pushErr, Nat.add_assoc]
      · rw [Bool.not_eq_true] at h3
        simp only [h2, hl, hl', h3]
        simp [stShift, pushErr, Nat.add_assoc]

theorem foldl_shift {α : Type} (s : ScanSt → α → ScanSt)
    (hs : ∀ base st x, s (stShift base st) x = stShift base (s st x)) :
    ∀ (l : List α) (base st : ScanSt),
      List.foldl s (stShift base st) l = stShift base (List.foldl s st l) := by
  intro l
  induction l with
  | nil => intro base st; rfl
  | cons x r ih =>
    intro base st
    simp only [List.foldl_cons, hs base st x]
    exact ih base (s st x)

theorem scanRoot_shift (env : Env) (idx hints : List (String × List String))
    (base st : ScanSt) (root : ScanRoot) :
    scanRoot env idx hints (stShift base st) root = stShift base (scanRoot env idx hints st root) := by
  unfold scanRoot
  by_cases h : root.rootExists = true
  · rw [h]
    rw [if_neg (show ¬ ((!true) = true) by simp)]
    rw [if_neg (show ¬ ((!true) = true) by simp)]
    have key : ∀ (E : List String) (W : List (String × String)),
        (⟨(stShift base st).games_found, (stShift base st).games_added,
          (stShift base st).games_updated, (stShift base st).errors ++ E,
          (stShift base st).cat, (stShift base st).writes ++ W⟩ : ScanSt) =
          stShift base
            ⟨st.games_found, st.games_added, st.games_updated, st.errors ++ E, st.cat,
              st.writes ++ W⟩ := by
      intro E W
      simp [stShift]
    dsimp only
    rw [key]
    rw [foldl_shift _ (importFileStep_shift env (coveredSet
      (buildGroups (discoverRoot env idx hints root).files)))]
    rw [foldl_shift _ (importM3uStep_shift env hints)]
  · rw [Bool.not_eq_true] at h
    rw [h]
    rw [if_pos (show (!false) = true by simp)]
    rw [if_pos (show (!false) = true by simp)]
    simp [pushErr, stShift]

theorem scanRoots_from (env : Env) (idx hints : List (String × List String))
    (roots : List ScanRoot) (st : ScanSt) :
    List.foldl (scanRoot env idx hints) st roots =
      stShift st (List.foldl (scanRoot env idx hints) (initSt st.cat) roots) := by
  conv_lhs => rw [← stShift_init st]
  exact foldl_shift _ (scanRoot_shift env idx hints) roots st (initSt st.cat)

/-- **C8.** Error isolation for a missing root: a scan whose root list
contains a nonexistent root still produces a result in which exactly one
error string is recorded for that root (inserted between the errors of
the surrounding roots), and the `games_found` / `games_added` /
`games_updated` totals, the catalog and the playlist writes all equal
those of the same scan with the missing root removed from the list. -/
theorem scan_missing_root_isolated (env : Env) (platforms : List Platform)
    (r1 r2 : List ScanRoot) (bad : ScanRoot) (cat0 : Catalog)
    (hbad : bad.rootExists = false) :
    (scan_library env platforms (r1 ++ bad :: r2) cat0).games_found =
        (scan_library env platforms (r1 ++ r2) cat0).games_found ∧
      (scan_library env platforms (r1 ++ bad :: r2) cat0).games_added =
        (scan_library env platforms (r1 ++ r2) cat0).games_added ∧
      (scan_library env platforms (r1 ++ bad :: r2) cat0).games_updated =
        (scan_library env platforms (r1 ++ r2) cat0).games_updated ∧
      (scan_library env platforms (r1 ++ bad :: r2) cat0).cat =
        (scan_library env platforms (r1 ++ r2) cat0).cat ∧
      (scan_library env platforms (r1 ++ bad :: r2) cat0).writes =
        (scan_library env platforms (r1 ++ r2) cat0).writes ∧
      ∃ e1 e2,
        (scan_library env platforms (r1 ++ bad :: r2) cat0).errors =
          e1 ++ ("Path does not exist: " ++ bad.path) :: e2 ∧
        (scan_library env platforms (r1 ++ r2) cat0).errors = e1 ++ e2 := by
  unfold scan_library
  rw [List.foldl_append, List.foldl_append, List.foldl_cons]
  have hstep : scanRoot env (extIndex platforms) platform_hints
      (List.foldl (scanRoot env (extIndex platforms) platform_hints) (initSt cat0) r1) bad =
      pushErr ("Path does not exist: " ++ bad.path)
        (List.foldl (scanRoot env (extIndex platforms) platform_hints) (initSt cat0) r1) := by
    unfold scanRoot
    rw [hbad]
    simp
  rw [hstep]
  have h1 := scanRoots_from env (extIndex platforms) platform_hints r2
    (pushErr ("Path does not exist: " ++ bad.path)
      (List.foldl (scanRoot env (extIndex platforms) platform_hints) (initSt cat0) r1))
  have h2 := scanRoots_from env (extIndex platforms) platform_hints r2
    (List.foldl (scanRoot env (extIndex platforms) platform_hints) (initSt cat0) r1)
  rw [h1, h2]
  refine ⟨by simp [stShift, pushErr], by simp [stShift, pushErr], by simp [stShift, pushErr],
    by simp [stShift, pushErr], by simp [stShift, pushErr], ?_⟩
  refine ⟨(List.foldl (scanRoot env (extIndex platforms) platform_hints) (initSt cat0) r1).errors,
    (List.foldl (scanRoot env (extIndex platforms) platform_hints)
      (initSt ((List.foldl (scanRoot env (extIndex platforms) platform_hints)
        (initSt cat0) r1).cat)) r2).errors, ?_, ?_⟩
  · simp [stShift, pushErr]
  · simp [stShift]

/-- Witness for the missing-root isolation theorem at a concrete world:
one valid root with one `.cue` file plus one missing root. -/
theorem scan_missing_root_isolated_witness :
    (scan_library ⟨id, fun _ => false, fun _ => false, fun _ => false⟩
        [⟨"ps1", [".cue"]⟩]
        ([⟨"/r", none, true, [⟨"/r", "Solo", some "cue"⟩]⟩] ++
          ⟨"/gone", none, false, []⟩ :: []) []).games_added =
      (scan_library ⟨id, fun _ => false, fun _ => false, fun _ => false⟩
        [⟨"ps1", [".cue"]⟩]
        ([⟨"/r", none, true, [⟨"/r", "Solo", some "cue"⟩]⟩] ++ []) []).games_added :=
  (scan_missing_root_isolated ⟨id, fun _ => false, fun _ => false, fun _ => false⟩
    [⟨"ps1", [".cue"]⟩] [⟨"/r", none, true, [⟨"/r", "Solo", some "cue"⟩]⟩] []
    ⟨"/gone", none, false, []⟩ [] (by decide)).2.1

/-! ## `games_added ≤ games_found` (C9) -/

theorem foldl_invariant {α : Type} (P : ScanSt → Prop) (s : ScanSt → α → ScanSt)
    (hs : ∀ st x, P st → P (s st x)) :
    ∀ (l : List α) (st : ScanSt), P st → P (List.foldl s st l) := by
  intro l
  induction l with
  | nil => intro st h; exact h
  | cons x r ih => intro st h; exact ih (s st x) (hs st x h)

theorem importFileStep_le (env : Env) (covered : List String) (st : ScanSt)
    (f : DiscoveredFile) (h : st.games_added ≤ st.games_found) :
    (importFileStep env covered st f).games_added ≤ (importFileStep env covered st f).games_found := by
  unfold importFileStep
  by_cases h1 : covered.contains f.path = true
  · simp only [h1]
    simpa using h
  · rw [Bool.not_eq_true] at h1
    by_cases h2 : env.queryFails (env.canon f.path) = true
    · simp only [h1, h2]
      simp [pushErr]
      omega
    · rw [Bool.not_eq_true] at h2
      cases hl : lookupCat st.cat (env.canon f.path) with
      | some g =>
        simp only [h1, h2, hl]
        simp
        omega
      | none =>
        by_cases h3 : env.insertFails (env.canon f.path) = true
        · simp only [h1, h2, hl, h3]
          simp [pushErr]
          omega
        · rw [Bool.not_eq_true] at h3
          simp only [h1, h2, hl, h3]
          simp
          omega

theorem importM3uStep_le (env : Env) (hints : List (String × List String)) (st : ScanSt)
    (p : String) (h : st.games_added ≤ st.games_found) :
    (importM3uStep env hints st p).games_added ≤ (importM3uStep env hints st p).games_found := by
  unfold importM3uStep
  by_cases h2 : env.queryFails (env.canon p) = true
  · simp only [h2]
    simpa [pushErr] using h
  · rw [Bool.not_eq_true] at h2
    cases hl : lookupCat st.cat (env.canon p) with
    | some g =>
      simp only [h2, hl]
      simp
      omega
    | none =>
      by_cases h3 : env.insertFails (env.canon p) = true
      · simp only [h2, hl, h3]
        simpa [pushErr] using h
      · rw [Bool.not_eq_true] at h3
        simp only [h2, hl, h3]
        simp
        omega

theorem scanRoot_le (env : Env) (idx hints : List (String × List String)) (st : ScanSt)
    (root : ScanRoot) (h : st.games_added ≤ st.games_found) :
    (scanRoot env idx hints st root).games_added ≤ (scanRoot env idx hints st root).games_found := by
  unfold scanRoot
  by_cases hr : root.rootExists = true
  · rw [hr]
    rw [if_neg (show ¬ ((!true) = true) by simp)]
    refine foldl_invariant (fun s => s.games_added ≤ s.games_found) _
      (fun s p hp => importM3uStep_le env hints s p hp) _ _ ?_
    refine foldl_invariant (fun s => s.games_added ≤ s.games_found) _
      (fun s f hf => importFileStep_le env _ s f hf) _ _ ?_
    simpa using h
  · rw [Bool.not_eq_true] at hr
    rw [hr]
    rw [if_pos (show (!false) = true by simp)]
    simpa [pushErr] using h

/-! ## Catalog lookup lemmas -/

theorem lookupCat_append_some {c1 c2 : Catalog} {k : String} {v : GameEntry}
    (h : lookupCat c1 k = some v) : lookupCat (c1 ++ c2) k = some v := by
  unfold lookupCat at h ⊢
  rw [List.find?_append]
  cases hf : c1.find? (fun e => e.1 == k) with
  | none => rw [hf] at h; cases h
  | some q => rw [hf] at h; simp [Option.or, hf, ← h]

theorem lookupCat_append_none {c1 c2 : Catalog} {k : String}
    (h : lookupCat c1 k = none) : lookupCat (c1 ++ c2) k = lookupCat c2 k := by
  unfold lookupCat at h ⊢
  rw [List.find?_append]
  cases hf : c1.find? (fun e => e.1 == k) with
  | none => simp [Option.or]
  | some q => rw [hf] at h; cases h

theorem lookupCat_single {k' k : String} {e : GameEntry} :
    lookupCat [(k', e)] k = if k' = k then some e else none := by
  by_cases h : k' = k
  · simp [lookupCat, List.find?, h]
  · have hb : (k' == k) = false := by simp [h]
    simp [lookupCat, List.find?, hb, h]

theorem lookupCat_nil {k : String} : lookupCat [] k = none := rfl

theorem lookupCat_mem_isSome {c : Catalog} {k : String} {e : GameEntry}
    (h : (k, e) ∈ c) : (lookupCat c k).isSome := by
  induction c with
  | nil => cases h
  | cons q rest ih =>
    by_cases hq : q.1 = k
    · simp [lookupCat, List.find?, hq]
    · have hq' : (q.1 == k) = false := by simp [hq]
      rcases List.mem_cons.mp h with h' | h'
      · rw [← h'] at hq; simp at hq
      · have := ih h'
        simpa [lookupCat, List.find?, hq'] using this

theorem importFileStep_cat (env : Env) (covered : List String) (st : ScanSt)
    (f : DiscoveredFile) :
    (importFileStep env covered st f).cat = st.cat ∨
      (importFileStep env covered st f).cat = st.cat ++ [importEntry env f] := by
  unfold importFileStep
  by_cases h1 : covered.contains f.path = true
  · simp only [h1]; left; rfl
  · rw [Bool.not_eq_true] at h1
    by_cases h2 : env.queryFails (env.canon f.path) = true
    · simp only [h1, h2]; left; rfl
    · rw [Bool.not_eq_true] at h2
      cases hl : lookupCat st.cat (env.canon f.path) with
      | some g => simp only [h1, h2, hl]; left; rfl
      | none =>
        by_cases h3 : env.insertFails (env.canon f.path) = true
        · simp only [h1, h2, hl, h3]; left; rfl
        · rw [Bool.not_eq_true] at h3
          simp only [h1, h2, hl, h3]
          right; rfl

theorem importM3uStep_cat (env : Env) (hints : List (String × List String)) (st : ScanSt)
    (p : String) :
    (importM3uStep env hints st p).cat = st.cat ∨
      (importM3uStep env hints st p).cat = st.cat ++ [m3uImportEntry env hints p] := by
  unfold importM3uStep
  by_cases h2 : env.queryFails (env.canon p) = true
  · simp only [h2]; left; rfl
  · rw [Bool.not_eq_true] at h2
    cases hl : lookupCat st.cat (env.canon p) with
    | some g => simp only [h2, hl]; left; rfl
    | none =>
      by_cases h3 : env.insertFails (env.canon p) = true
      · simp only [h2, hl, h3]; left; rfl
      · rw [Bool.not_eq_true] at h3
        simp only [h2, hl, h3]
        right; rfl

theorem loop1_lookup_some_preserved (env : Env) (covered : List String) {k : String}
    {v : GameEntry} :
    ∀ (files : List DiscoveredFile) (st : ScanSt), lookupCat st.cat k = some v →
      lookupCat (List.foldl (importFileStep env covered) st files).cat k = some v := by
  intro files
  induction files with
  | nil => intro st h; exact h
  | cons f rest ih =>
    intro st h
    refine ih (importFileStep env covered st f) ?_
    rcases importFileStep_cat env covered st f with hc | hc
    · rw [hc]; exact h
    · rw [hc]; exact lookupCat_append_some h

theorem loop2_lookup_some_preserved (env : Env) (hints : List (String × List String))
    {k : String} {v : GameEntry} :
    ∀ (ps : List String) (st : ScanSt), lookupCat st.cat k = some v →
      lookupCat (List.foldl (importM3uStep env hints) st ps).cat k = some v := by
  intro ps
  induction ps with
  | nil => intro st h; exact h
  | cons p rest ih =>
    intro st h
    refine ih (importM3uStep env hints st p) ?_
    rcases importM3uStep_cat env hints st p with hc | hc
    · rw [hc]; exact h
    · rw [hc]; exact lookupCat_append_some h

theorem loop1_all_covered (env : Env) (covered : List String) :
    ∀ (files : List DiscoveredFile) (st : ScanSt),
      (∀ f ∈ files, covered.contains f.path = true) →
      List.foldl (importFileStep env covered) st files = st := by
  intro files
  induction files with
  | nil => intro st _; rfl
  | cons f rest ih =>
    intro st h
    have hf : covered.contains f.path = true := h f (List.mem_cons_self f rest)
    have hstep : importFileStep env covered st f = st := by
      unfold importFileStep
      simp only [hf]
      simp
    rw [List.foldl_cons, hstep]
    exact ih st (fun g hg => h g (List.mem_cons_of_mem f hg))

theorem loop1_skip_covered (env : Env) (covered : List String) :
    ∀ (files : List DiscoveredFile) (st : ScanSt),
      List.foldl (importFileStep env covered) st files =
        List.foldl (importFileStep env covered) st
          (files.filter (fun f => !covered.contains f.path)) := by
  intro files
  induction files with
  | nil => intro st; rfl
  | cons f rest ih =>
    intro st
    by_cases hf : covered.contains f.path = true
    · have hstep : importFileStep env covered st f = st := by
        unfold importFileStep
        simp only [hf]
        simp
      have hfil : (f :: rest).filter (fun f => !covered.contains f.path) =
          rest.filter (fun f => !covered.contains f.path) := by
        simp only [List.filter_cons, hf]
        simp
      rw [List.foldl_cons, hstep, hfil]
      exact ih st
    · rw [Bool.not_eq_true] at hf
      have hfil : (f :: rest).filter (fun f => !covered.contains f.path) =
          f :: rest.filter (fun f => !covered.contains f.path) := by
        simp only [List.filter_cons, hf]
        simp
      rw [hfil, List.foldl_cons, List.foldl_cons]
      exact ih (importFileStep env covered st f)

theorem loop1_fresh_adds (env : Env) (covered : List String) :
    ∀ (files : List DiscoveredFile) (st : ScanSt),
      (∀ f ∈ files, covered.contains f.path = false) →
      (∀ f ∈ files, env.queryFails (env.canon f.path) = false) →
      (∀ f ∈ files, env.insertFails (env.canon f.path) = false) →
      (∀ f ∈ files, lookupCat st.cat (env.canon f.path) = none) →
      files.Pairwise (fun f g => env.canon f.path ≠ env.canon g.path) →
      List.foldl (importFileStep env covered) st files =
        { st with games_found := st.games_found + files.length,
                  games_added := st.games_added + files.length,
                  cat := st.cat ++ files.map (importEntry env) } := by
  intro files
  induction files with
  | nil =>
    intro st _ _ _ _ _
    simp
  | cons f rest ih =>
    intro st hcov hq hi hfresh hdist
    have hstep : importFileStep env covered st f =
        { st with games_found := st.games_found + 1,
                  games_added := st.games_added + 1,
                  cat := st.cat ++ [importEntry env f] } := by
      unfold importFileStep
      simp only [hcov f (List.mem_cons_self f rest), hq f (List.mem_cons_self f rest),
        hfresh f (List.mem_cons_self f rest), hi f (List.mem_cons_self f rest)]
      simp [addCat, importEntry]
    rw [List.foldl_cons, hstep]
    have hpair := List.pairwise_cons.mp hdist
    have hrest := ih
      { st with
          games_found := st.games_found + 1
          games_added := st.games_added + 1
          cat := st.cat ++ [importEntry env f] }
      (fun g hg => hcov g (List.mem_cons_of_mem f hg))
      (fun g hg => hq g (List.mem_cons_of_mem f hg))
      (fun g hg => hi g (List.mem_cons_of_mem f hg))
      (fun g hg => by
        have h0 : lookupCat st.cat (env.canon g.path) = none :=
          hfresh g (List.mem_cons_of_mem f hg)
        have hne : env.canon f.path ≠ env.canon g.path := hpair.1 g hg
        show lookupCat (st.cat ++ [importEntry env f]) (env.canon g.path) = none
        rw [lookupCat_append_none h0, lookupCat_single]
        rw [if_neg (by simp [importEntry]; exact hne)])
      hpair.2
    rw [hrest]
    have e1 : st.games_found + 1 + rest.length = st.games_found + (rest.length + 1) := by omega
    have e2 : st.games_added + 1 + rest.length = st.games_added + (rest.length + 1) := by omega
    simp [e1, e2]

theorem loop1_all_present (env : Env) (covered : List String) :
    ∀ (files : List DiscoveredFile) (st : ScanSt),
      (∀ f ∈ files, covered.contains f.path = false) →
      (∀ f ∈ files, env.queryFails (env.canon f.path) = false) →
      (∀ f ∈ files, (lookupCat st.cat (env.canon f.path)).isSome) →
      List.foldl (importFileStep env covered) st files =
        { st with games_found := st.games_found + files.length,
                  games_updated := st.games_updated + files.length } := by
  intro files
  induction files with
  | nil =>
    intro st _ _ _
    simp
  | cons f rest ih =>
    intro st hcov hq hsome
    obtain ⟨v, hv⟩ := Option.isSome_iff_exists.mp (hsome f (List.mem_cons_self f rest))
    have hstep : importFileStep env covered st f =
        { st with games_found := st.games_found + 1,
                  games_updated := st.games_updated + 1 } := by
      unfold importFileStep
      simp only [hcov f (List.mem_cons_self f rest), hq f (List.mem_cons_self f rest), hv]
      simp
    rw [List.foldl_cons, hstep]
    have hrest := ih
      { st with
          games_found := st.games_found + 1
          games_updated := st.games_updated + 1 }
      (fun g hg => hcov g (List.mem_cons_of_mem f hg))
      (fun g hg => hq g (List.mem_cons_of_mem f hg))
      (fun g hg => hsome g (List.mem_cons_of_mem f hg))
    rw [hrest]
    have e1 : st.games_found + 1 + rest.length = st.games_found + (rest.length + 1) := by omega
    have e2 : st.games_updated + 1 + rest.length = st.games_updated + (rest.length + 1) := by
      omega
    simp [e1, e2]

theorem loop2_fresh_adds (env : Env) (hints : List (String × List String)) :
    ∀ (ps : List String) (st : ScanSt),
      (∀ p ∈ ps, env.queryFails (env.canon p) = false) →
      (∀ p ∈ ps, env.insertFails (env.canon p) = false) →
      (∀ p ∈ ps, lookupCat st.cat (env.canon p) = none) →
      ps.Pairwise (fun p q => env.canon p ≠ env.canon q) →
      List.foldl (importM3uStep env hints) st ps =
        { st with games_found := st.games_found + ps.length,
                  games_added := st.games_added + ps.length,
                  cat := st.cat ++ ps.map (m3uImportEntry env hints) } := by
  intro ps
  induction ps with
  | nil =>
    intro st _ _ _ _
    simp
  | cons p rest ih =>
    intro st hq hi hfresh hdist
    have hstep : importM3uStep env hints st p =
        { st with games_found := st.games_found + 1,
                  games_added := st.games_added + 1,
                  cat := st.cat ++ [m3uImportEntry env hints p] } := by
      unfold importM3uStep
      simp only [hq p (List.mem_cons_self p rest), hfresh p (List.mem_cons_self p rest),
        hi p (List.mem_cons_self p rest)]
      simp [addCat, m3uImportEntry]
    rw [List.foldl_cons, hstep]
    have hpair := List.pairwise_cons.mp hdist
    have hrest := ih
      { st with
          games_found := st.games_found + 1
          games_added := st.games_added + 1
          cat := st.cat ++ [m3uImportEntry env hints p] }
      (fun q hg => hq q (List.mem_cons_of_mem p hg))
      (fun q hg => hi q (List.mem_cons_of_mem p hg))
      (fun q hg => by
        have h0 : lookupCat st.cat (env.canon q) = none :=
          hfresh q (List.mem_cons_of_mem p hg)
        have hne : env.canon p ≠ env.canon q := hpair.1 q hg
        show lookupCat (st.cat ++ [m3uImportEntry env hints p]) (env.canon q) = none
        rw [lookupCat_append_none h0, lookupCat_single]
        rw [if_neg (by simp [m3uImportEntry]; exact hne)])
      hpair.2
    rw [hrest]
    have e1 : st.games_found + 1 + rest.length = st.games_found + (rest.length + 1) := by omega
    have e2 : st.games_added + 1 + rest.length = st.games_added + (rest.length + 1) := by omega
    simp [e1, e2]

theorem loop2_all_present (env : Env) (hints : List (String × List String)) :
    ∀ (ps : List String) (st : ScanSt),
      (∀ p ∈ ps, env.queryFails (env.canon p) = false) →
      (∀ p ∈ ps, (lookupCat st.cat (env.canon p)).isSome) →
      List.foldl (importM3uStep env hints) st ps =
        { st with games_updated := st.games_updated + ps.length } := by
  intro ps
  induction ps with
  | nil =>
    intro st _ _
    simp
  | cons p rest ih =>
    intro st hq hsome
    obtain ⟨v, hv⟩ := Option.isSome_iff_exists.mp (hsome p (List.mem_cons_self p rest))
    have hstep : importM3uStep env hints st p =
        { st with games_updated := st.games_updated + 1 } := by
      unfold importM3uStep
      simp only [hq p (List.mem_cons_self p rest), hv]
      simp
    rw [List.foldl_cons, hstep]
    have hrest := ih
      { st with games_updated := st.games_updated + 1 }
      (fun q hg => hq q (List.mem_cons_of_mem p hg))
      (fun q hg => hsome q (List.mem_cons_of_mem p hg))
    rw [hrest]
    have e2 : st.games_updated + 1 + rest.length = st.games_updated + (rest.length + 1) := by
      omega
    simp [e2]

theorem insertNew_mem {l : List String} {y x : String} :
    x ∈ insertNew l y ↔ x ∈ l ∨ x = y := by
  by_cases h : l.contains y = true
  · have hy : y ∈ l := by simpa using h
    unfold insertNew
    rw [if_pos h]
    constructor
    · exact Or.inl
    · rintro (hx | rfl)
      · exact hx
      · exact hy
  · rw [Bool.not_eq_true] at h
    unfold insertNew
    rw [if_neg (by rw [h]; simp)]
    simp

theorem playlistStep_errs (env : Env) (existing : List String) (st : PlistSt)
    (g : (String × String) × List (Nat × String)) :
    (playlistStep env existing st g).errs = st.errs ++ perGroupErr env existing g := by
  unfold playlistStep perGroupErr
  by_cases h1 : g.2.length > 1
  · rw [if_pos h1, if_pos h1]
    by_cases h2 : existing.contains (m3uPathOf g.1) = true
    · simp only [h2]
      simp
    · rw [Bool.not_eq_true] at h2
      simp only [h2]
      by_cases h3 : env.writeFails (m3uPathOf g.1) = true
      · simp only [h3]
        simp
      · rw [Bool.not_eq_true] at h3
        simp only [h3]
        simp
  · rw [if_neg h1, if_neg h1]
    simp

theorem playlistStep_writes (env : Env) (existing : List String) (st : PlistSt)
    (g : (String × String) × List (Nat × String)) :
    (playlistStep env existing st g).writes = st.writes ++ perGroupWrites env existing g := by
  unfold playlistStep perGroupWrites
  by_cases h1 : g.2.length > 1
  · rw [if_pos h1, if_pos h1]
    by_cases h2 : existing.contains (m3uPathOf g.1) = true
    · simp only [h2]
      simp
    · rw [Bool.not_eq_true] at h2
      simp only [h2]
      by_cases h3 : env.writeFails (m3uPathOf g.1) = true
      · simp only [h3]
        simp
      · rw [Bool.not_eq_true] at h3
        simp only [h3]
        simp
  · rw [if_neg h1, if_neg h1]
    simp

theorem playlistStep_gen_mem (env : Env) (existing : List String) (st : PlistSt)
    (g : (String × String) × List (Nat × String)) (x : String) :
    x ∈ (playlistStep env existing st g).generated ↔
      x ∈ st.generated ∨ x ∈ perGroupGen env existing g := by
  unfold playlistStep perGroupGen
  by_cases h1 : g.2.length > 1
  · rw [if_pos h1, if_pos h1]
    by_cases h2 : existing.contains (m3uPathOf g.1) = true
    · simp only [h2]
      simp [insertNew_mem]
    · rw [Bool.not_eq_true] at h2
      simp only [h2]
      by_cases h3 : env.writeFails (m3uPathOf g.1) = true
      · simp only [h3]
        simp
      · rw [Bool.not_eq_true] at h3
        simp only [h3]
        simp [insertNew_mem]
  · rw [if_neg h1, if_neg h1]
    simp

theorem playlistFold_errs (env : Env) (existing : List String) :
    ∀ (gs : List ((String × String) × List (Nat × String))) (st : PlistSt),
      (List.foldl (playlistStep env existing) st gs).errs =
        st.errs ++ gs.flatMap (perGroupErr env existing) := by
  intro gs
  induction gs with
  | nil => intro st; simp
  | cons g rest ih =>
    intro st
    rw [List.foldl_cons, ih (playlistStep env existing st g), playlistStep_errs]
    simp

theorem playlistFold_writes (env : Env) (existing : List String) :
    ∀ (gs : List ((String × String) × List (Nat × String))) (st : PlistSt),
      (List.foldl (playlistStep env existing) st gs).writes =
        st.writes ++ gs.flatMap (perGroupWrites env existing) := by
  intro gs
  induction gs with
  | nil => intro st; simp
  | cons g rest ih =>
    intro st
    rw [List.foldl_cons, ih (playlistStep env existing st g), playlistStep_writes]
    simp

theorem playlistFold_gen_mem (env : Env) (existing : List String) :
    ∀ (gs : List ((String × String) × List (Nat × String))) (st : PlistSt) (x : String),
      x ∈ (List.foldl (playlistStep env existing) st gs).generated ↔
        x ∈ st.generated ∨ ∃ g ∈ gs, x ∈ perGroupGen env existing g := by
  intro gs
  induction gs with
  | nil => intro st x; simp
  | cons g rest ih =>
    intro st x
    rw [List.foldl_cons, ih (playlistStep env existing st g) x, playlistStep_gen_mem]
    constructor
    · rintro ((hx | hx) | ⟨g', hg', hx⟩)
      · exact Or.inl hx
      · exact Or.inr ⟨g, List.mem_cons_self g rest, hx⟩
      · exact Or.inr ⟨g', List.mem_cons_of_mem g hg', hx⟩
    · rintro (hx | ⟨g', hg', hx⟩)
      · exact Or.inl (Or.inl hx)
      · rcases List.mem_cons.mp hg' with rfl | hg''
        · exact Or.inl (Or.inr hx)
        · exact Or.inr ⟨g', hg'', hx⟩

theorem playlistPhase_errs (env : Env) (existing : List String)
    (gs : List ((String × String) × List (Nat × String))) :
    (playlistPhase env existing gs).errs = gs.flatMap (perGroupErr env existing) := by
  unfold playlistPhase
  rw [playlistFold_errs]
  simp

theorem playlistPhase_writes (env : Env) (existing : List String)
    (gs : List ((String × String) × List (Nat × String))) :
    (playlistPhase env existing gs).writes = gs.flatMap (perGroupWrites env existing) := by
  unfold playlistPhase
  rw [playlistFold_writes]
  simp

theorem playlistPhase_gen_mem (env : Env) (existing : List String)
    (gs : List ((String × String) × List (Nat × String))) (x : String) :
    x ∈ (playlistPhase env existing gs).generated ↔
      ∃ g ∈ gs, x ∈ perGroupGen env existing g := by
  unfold playlistPhase
  rw [playlistFold_gen_mem]
  simp

theorem coveredSet_mem :
    ∀ (gs : List ((String × String) × List (Nat × String))) (p : String),
      p ∈ coveredSet gs ↔ ∃ g ∈ gs, g.2.length > 1 ∧ p ∈ g.2.map (fun d => d.2) := by
  have haux : ∀ (gs : List ((String × String) × List (Nat × String)))
      (acc : List String) (p : String),
      p ∈ gs.foldl (fun acc g => if g.2.length > 1 then acc ++ g.2.map (fun d => d.2) else acc)
        acc ↔ p ∈ acc ∨ ∃ g ∈ gs, g.2.length > 1 ∧ p ∈ g.2.map (fun d => d.2) := by
    intro gs
    induction gs with
    | nil => intro acc p; simp
    | cons g rest ih =>
      intro acc p
      rw [List.foldl_cons, ih]
      by_cases h1 : g.2.length > 1
      · rw [if_pos h1]
        constructor
        · rintro (hx | hx)
          · rcases List.mem_append.mp hx with hx | hx
            · exact Or.inl hx
            · exact Or.inr ⟨g, List.mem_cons_self g rest, h1, hx⟩
          · rcases hx with ⟨g', hg', hx⟩
            exact Or.inr ⟨g', List.mem_cons_of_mem g hg', hx⟩
        · rintro (hx | ⟨g', hg', hlen, hx⟩)
          · exact Or.inl (List.mem_append.mpr (Or.inl hx))
          · rcases List.mem_cons.mp hg' with rfl | hg''
            · exact Or.inl (List.mem_append.mpr (Or.inr hx))
            · exact Or.inr ⟨g', hg'', hlen, hx⟩
      · rw [if_neg h1]
        constructor
        · rintro (hx | ⟨g', hg', hx⟩)
          · exact Or.inl hx
          · exact Or.inr ⟨g', List.mem_cons_of_mem g hg', hx⟩
        · rintro (hx | ⟨g', hg', hlen, hx⟩)
          · exact Or.inl hx
          · rcases List.mem_cons.mp hg' with rfl | hg''
            · exact absurd hlen h1
            · exact Or.inr ⟨g', hg'', hlen, hx⟩
  intro gs p
  unfold coveredSet
  rw [haux]
  simp

/-- **C7.** Playlist artifact format and reuse: for every disc group of
two or more discs whose computed `.m3u` path is not in the
pre-existing-playlist set and whose write succeeds, phase 2 records a
write at exactly that path whose content is the member disc file names
(no directory component), one per line in ascending disc-number order,
joined by `\n` with nothing else; and no write is ever recorded at a
path in the pre-existing set, so a pre-existing playlist's bytes are
never touched. -/
theorem playlist_format_and_no_regenerate :
    (∀ (env : Env) (existing : List String)
        (groups : List ((String × String) × List (Nat × String)))
        (g : (String × String) × List (Nat × String)),
      g ∈ groups → 1 < g.2.length → existing.contains (m3uPathOf g.1) = false →
      env.writeFails (m3uPathOf g.1) = false →
      ∃ sorted : List (Nat × String), sorted.Perm g.2 ∧
        sorted.Pairwise (fun a b => a.1 ≤ b.1) ∧
        (m3uPathOf g.1,
            String.intercalate "\n" (sorted.filterMap (fun d => pathFileName d.2))) ∈
          (playlistPhase env existing groups).writes) ∧
    (∀ (env : Env) (existing : List String)
        (groups : List ((String × String) × List (Nat × String)))
        (pc : String × String),
      pc ∈ (playlistPhase env existing groups).writes → existing.contains pc.1 = false) := by
  constructor
  · intro env existing groups g hg hlen hex hw
    refine ⟨g.2.mergeSort (fun a b => decide (a.1 ≤ b.1)), List.mergeSort_perm g.2 _, ?_, ?_⟩
    · have hs := @List.sorted_mergeSort (Nat × String)
        (fun a b => decide (a.1 ≤ b.1))
        (fun a b c hab hbc => by
          simp at hab hbc ⊢
          omega)
        (fun a b => by
          simp
          omega)
        g.2
      exact hs.imp (fun h => by simpa using h)
    · rw [playlistPhase_writes]
      rw [List.mem_flatMap]
      refine ⟨g, hg, ?_⟩
      unfold perGroupWrites
      rw [if_pos hlen, if_neg (by rw [hex]; simp), if_neg (by rw [hw]; simp)]
      simp [m3uContent]
  · intro env existing groups pc hpc
    rw [playlistPhase_writes, List.mem_flatMap] at hpc
    rcases hpc with ⟨g, _, hx⟩
    unfold perGroupWrites at hx
    by_cases h1 : g.2.length > 1
    · rw [if_pos h1] at hx
      by_cases h2 : existing.contains (m3uPathOf g.1) = true
      · rw [if_pos h2] at hx
        cases hx
      · rw [Bool.not_eq_true] at h2
        rw [if_neg (by rw [h2]; simp)] at hx
        by_cases h3 : env.writeFails (m3uPathOf g.1) = true
        · rw [if_pos h3] at hx
          cases hx
        · rw [Bool.not_eq_true] at h3
          rw [if_neg (by rw [h3]; simp)] at hx
          rcases List.mem_singleton.mp hx with rfl
          exact h2
    · rw [if_neg h1] at hx
      cases hx

/-- Witness for the playlist-format theorem: a two-disc group (listed
out of order) produces a write with the discs in ascending order, at a
world where the path is not pre-existing and the write succeeds. -/
theorem playlist_format_and_no_regenerate_witness :
    ∃ sorted : List (Nat × String),
      sorted.Perm [(2, "/r/Game (Disc 2).cue"), (1, "/r/Game (Disc 1).cue")] ∧
      sorted.Pairwise (fun a b => a.1 ≤ b.1) ∧
      (m3uPathOf ("/r", "Game"),
          String.intercalate "\n" (sorted.filterMap (fun d => pathFileName d.2))) ∈
        (playlistPhase ⟨id, fun _ => false, fun _ => false, fun _ => false⟩ []
          [(("/r", "Game"), [(2, "/r/Game (Disc 2).cue"), (1, "/r/Game (Disc 1).cue")])]).writes :=
  playlist_format_and_no_regenerate.1
    ⟨id, fun _ => false, fun _ => false, fun _ => false⟩ []
    [(("/r", "Game"), [(2, "/r/Game (Disc 2).cue"), (1, "/r/Game (Disc 1).cue")])]
    (("/r", "Game"), [(2, "/r/Game (Disc 2).cue"), (1, "/r/Game (Disc 1).cue")])
    (List.mem_singleton.mpr rfl) (by decide) (by decide) (by decide)

/-- **C3.** Playlist-write failure isolation: phase 2's error list is
the concatenation of independent per-group contributions; a group of
two or more discs whose fresh playlist write fails contributes exactly
the one error string naming its base title, its member disc files are
all in the covered set, and the per-file import loop ignores covered
files entirely (so the members are not imported as individual catalog
entries while every other file and group is processed as usual). -/
theorem playlist_write_failure_isolated :
    (∀ (env : Env) (existing : List String)
        (groups : List ((String × String) × List (Nat × String))),
      (playlistPhase env existing groups).errs =
        groups.flatMap (perGroupErr env existing)) ∧
    (∀ (env : Env) (existing : List String)
        (groups : List ((String × String) × List (Nat × String)))
        (g : (String × String) × List (Nat × String)),
      g ∈ groups → 1 < g.2.length → existing.contains (m3uPathOf g.1) = false →
      env.writeFails (m3uPathOf g.1) = true →
      perGroupErr env existing g = ["Failed to generate .m3u for " ++ g.1.2] ∧
      ∀ m ∈ g.2, m.2 ∈ coveredSet groups) ∧
    (∀ (env : Env) (covered : List String) (files : List DiscoveredFile) (st : ScanSt),
      List.foldl (importFileStep env covered) st files =
        List.foldl (importFileStep env covered) st
          (files.filter (fun f => !covered.contains f.path))) := by
  refine ⟨playlistPhase_errs, ?_, fun env covered files st => loop1_skip_covered env covered files st⟩
  intro env existing groups g hg hlen hex hw
  constructor
  · unfold perGroupErr
    rw [if_pos hlen, if_neg (by rw [hex]; simp), if_pos hw]
  · intro m hm
    rw [coveredSet_mem]
    exact ⟨g, hg, hlen, List.mem_map.mpr ⟨m, hm, rfl⟩⟩

/-- Witness for the playlist-write-failure theorem: a concrete
two-disc group whose write fails yields the single error naming the
base title, with both member paths covered. -/
theorem playlist_write_failure_isolated_witness :
    perGroupErr ⟨id, fun _ => false, fun _ => false, fun p => p == "/r/Game.m3u"⟩ []
        (("/r", "Game"), [(1, "/r/Game (Disc 1).cue"), (2, "/r/Game (Disc 2).cue")]) =
      ["Failed to generate .m3u for Game"] ∧
    ∀ m ∈ [((1 : Nat), "/r/Game (Disc 1).cue"), (2, "/r/Game (Disc 2).cue")],
      m.2 ∈ coveredSet
        [(("/r", "Game"), [(1, "/r/Game (Disc 1).cue"), (2, "/r/Game (Disc 2).cue")])] :=
  (playlist_write_failure_isolated.2.1
    ⟨id, fun _ => false, fun _ => false, fun p => p == "/r/Game.m3u"⟩ []
    [(("/r", "Game"), [(1, "/r/Game (Disc 1).cue"), (2, "/r/Game (Disc 2).cue")])]
    (("/r", "Game"), [(1, "/r/Game (Disc 1).cue"), (2, "/r/Game (Disc 2).cue")])
    (List.mem_singleton.mpr rfl) (by decide) (by decide) (by decide))

/-! ## Helpers for the whole-scan scenario theorems -/

theorem scanRoot_exists_eq (env : Env) (idx hints : List (String × List String))
    (st : ScanSt) (root : ScanRoot) (h : root.rootExists = true) :
    scanRoot env idx hints st root =
      (playlistPhase env (discoverRoot env idx hints root).existing
          (buildGroups (discoverRoot env idx hints root).files)).generated.foldl
        (importM3uStep env hints)
        (List.foldl
          (importFileStep env (coveredSet (buildGroups (discoverRoot env idx hints root).files)))
          { st with
              errors := st.errors ++
                (playlistPhase env (discoverRoot env idx hints root).existing
                  (buildGroups (discoverRoot env idx hints root).files)).errs
              writes := st.writes ++
                (playlistPhase env (discoverRoot env idx hints root).existing
                  (buildGroups (discoverRoot env idx hints root).files)).writes }
          (discoverRoot env idx hints root).files) := by
  unfold scanRoot
  rw [h]
  rw [if_neg (show ¬ ((!true) = true) by simp)]

theorem scan_library_single (env : Env) (platforms : List Platform) (r : ScanRoot)
    (cat0 : Catalog) :
    scan_library env platforms [r] cat0 =
      scanRoot env (extIndex platforms) platform_hints (initSt cat0) r := rfl

theorem playlistPhase_trivial (env : Env) (existing : List String) :
    ∀ gs : List ((String × String) × List (Nat × String)),
      (∀ g ∈ gs, ¬ 1 < g.2.length) → playlistPhase env existing gs = ⟨[], [], []⟩ := by
  have haux : ∀ (gs : List ((String × String) × List (Nat × String))) (st : PlistSt),
      (∀ g ∈ gs, ¬ 1 < g.2.length) →
      List.foldl (playlistStep env existing) st gs = st := by
    intro gs
    induction gs with
    | nil => intro st _; rfl
    | cons g rest ih =>
      intro st h
      have hg : ¬ 1 < g.2.length := h g (List.mem_cons_self g rest)
      have hstep : playlistStep env existing st g = st := by
        unfold playlistStep
        rw [if_neg hg]
      rw [List.foldl_cons, hstep]
      exact ih st (fun g' hg' => h g' (List.mem_cons_of_mem g hg'))
  intro gs h
  exact haux gs ⟨[], [], []⟩ h

theorem coveredSet_trivial :
    ∀ gs : List ((String × String) × List (Nat × String)),
      (∀ g ∈ gs, ¬ 1 < g.2.length) → coveredSet gs = [] := by
  intro gs h
  have hnone : ∀ p, p ∉ coveredSet gs := by
    intro p hp
    rcases (coveredSet_mem gs p).mp hp with ⟨g, hg, hlen, _⟩
    exact h g hg hlen
  cases hc : coveredSet gs with
  | nil => rfl
  | cons x rest => exact absurd (hc ▸ List.mem_cons_self x rest) (hnone x)

theorem lookupCat_append_isSome {c1 c2 : Catalog} {k : String}
    (h1 : lookupCat c1 k = none) (h2 : (lookupCat c2 k).isSome) :
    (lookupCat (c1 ++ c2) k).isSome := by
  rw [lookupCat_append_none h1]
  exact h2

theorem lookupCat_map_importEntry_isSome (env : Env) {files : List DiscoveredFile}
    {f : DiscoveredFile} (hf : f ∈ files) :
    (lookupCat (files.map (importEntry env)) (env.canon f.path)).isSome := by
  have hmem : (env.canon f.path, (⟨clean_rom_title f.base_name, f.platform_id⟩ : GameEntry)) ∈
      files.map (importEntry env) :=
    List.mem_map.mpr ⟨f, hf, rfl⟩
  exact lookupCat_mem_isSome hmem

theorem loop1_processes_file (env : Env) (covered : List String) :
    ∀ (files : List DiscoveredFile) (st : ScanSt) (f : DiscoveredFile), f ∈ files →
      covered.contains f.path = false →
      env.queryFails (env.canon f.path) = false →
      env.insertFails (env.canon f.path) = false →
      lookupCat st.cat (env.canon f.path) = none →
      (∀ g ∈ files, env.canon g.path = env.canon f.path → g = f) →
      lookupCat (List.foldl (importFileStep env covered) st files).cat (env.canon f.path) =
        some ⟨clean_rom_title f.base_name, f.platform_id⟩ := by
  intro files
  induction files with
  | nil => intro st f hf; cases hf
  | cons g rest ih =>
    intro st f hf hcov hq hi hfresh huniq
    by_cases hgf : g = f
    · subst hgf
      have hstep : importFileStep env covered st g =
          { st with
              games_found := st.games_found + 1
              games_added := st.games_added + 1
              cat := st.cat ++ [importEntry env g] } := by
        unfold importFileStep
        simp only [hcov, hq, hfresh, hi]
        simp [addCat, importEntry]
      rw [List.foldl_cons, hstep]
      refine loop1_lookup_some_preserved env covered rest _ ?_
      show lookupCat (st.cat ++ [importEntry env g]) (env.canon g.path) =
        some ⟨clean_rom_title g.base_name, g.platform_id⟩
      rw [lookupCat_append_none hfresh]
      unfold importEntry
      rw [lookupCat_single, if_pos rfl]
    · have hfr : f ∈ rest := by
        rcases List.mem_cons.mp hf with h | h
        · exact absurd h.symm hgf
        · exact h
      have hne : env.canon g.path ≠ env.canon f.path := by
        intro he
        exact hgf (huniq g (List.mem_cons_self g rest) he)
      rw [List.foldl_cons]
      refine ih (importFileStep env covered st g) f hfr hcov hq hi ?_
        (fun g' hg' he => huniq g' (List.mem_cons_of_mem g hg') he)
      rcases importFileStep_cat env covered st g with hc | hc
      · rw [hc]; exact hfresh
      · rw [hc, lookupCat_append_none hfresh]
        unfold importEntry
        rw [lookupCat_single, if_neg hne]

/-- **C2 (counterexample).** Scanning a two-disc root twice with no
external filesystem changes (the second walk sees exactly the files the
first scan left behind, including the `.m3u` it generated) yields
`gamesAdded = 0` on the second run as claimed, but the second run's
`gamesUpdated` is 2 — one update for the playlist as a discovered file
and one for the same playlist in the generated-playlist pass — while
the first run's `gamesAdded` is 1, refuting the claimed equality. -/
theorem scan_rescan_idempotence_cex :
    (scan_library envId platsCue [rootFresh] []).games_added = 1 ∧
      (scan_library envId platsCue
        [applyRootWrites rootFresh (scan_library envId platsCue [rootFresh] []).writes]
        (scan_library envId platsCue [rootFresh] []).cat).games_added = 0 ∧
      (scan_library envId platsCue
        [applyRootWrites rootFresh (scan_library envId platsCue [rootFresh] []).writes]
        (scan_library envId platsCue [rootFresh] []).cat).games_updated = 2 ∧
      (2 : Nat) ≠ 1 := by
  refine ⟨by decide, by decide, by decide, by decide⟩

/-- **C2 (amended).** Re-scan idempotence holds on roots without true
multi-disc sets: when every disc group of the discovery output has at
most one member (so no playlist is generated or reused), no catalog
call fails, the discovered files' canonical paths are pairwise distinct
and none of them is in the initial catalog, then the first scan writes
nothing to disk, and scanning the same root again yields
`gamesAdded = 0` and `gamesUpdated` equal to the first run's
`gamesAdded`.  (For roots with multi-disc sets the playlist is
reconciled twice on the re-scan, adding one extra `gamesUpdated` per
playlist — see the counterexample.) -/
theorem scan_rescan_idempotent_amended (env : Env) (platforms : List Platform)
    (r : ScanRoot) (cat0 : Catalog)
    (hroot : r.rootExists = true)
    (hgroups : ∀ g ∈ buildGroups
      (discoverRoot env (extIndex platforms) platform_hints r).files, ¬ 1 < g.2.length)
    (hq : ∀ f ∈ (discoverRoot env (extIndex platforms) platform_hints r).files,
      env.queryFails (env.canon f.path) = false)
    (hi : ∀ f ∈ (discoverRoot env (extIndex platforms) platform_hints r).files,
      env.insertFails (env.canon f.path) = false)
    (hfresh : ∀ f ∈ (discoverRoot env (extIndex platforms) platform_hints r).files,
      lookupCat cat0 (env.canon f.path) = none)
    (hdist : (discoverRoot env (extIndex platforms) platform_hints r).files.Pairwise
      (fun f g => env.canon f.path ≠ env.canon g.path)) :
    (scan_library env platforms [r] cat0).writes = [] ∧
      (scan_library env platforms [r]
        (scan_library env platforms [r] cat0).cat).games_added = 0 ∧
      (scan_library env platforms [r]
        (scan_library env platforms [r] cat0).cat).games_updated =
        (scan_library env platforms [r] cat0).games_added := by
  have hpl := playlistPhase_trivial env
    (discoverRoot env (extIndex platforms) platform_hints r).existing
    (buildGroups (discoverRoot env (extIndex platforms) platform_hints r).files) hgroups
  have hcov := coveredSet_trivial
    (buildGroups (discoverRoot env (extIndex platforms) platform_hints r).files) hgroups
  have hcovall : ∀ f ∈ (discoverRoot env (extIndex platforms) platform_hints r).files,
      (([] : List String)).contains f.path = false := fun f _ => rfl
  have ho1 : scan_library env platforms [r] cat0 =
      ⟨(discoverRoot env (extIndex platforms) platform_hints r).files.length,
        (discoverRoot env (extIndex platforms) platform_hints r).files.length, 0, [],
        cat0 ++ (discoverRoot env (extIndex platforms) platform_hints r).files.map
          (importEntry env), []⟩ := by
    rw [scan_library_single, scanRoot_exists_eq env (extIndex platforms) platform_hints
      (initSt cat0) r hroot, hpl, hcov]
    show List.foldl (importFileStep env [])
        { initSt cat0 with errors := [] ++ [], writes := [] ++ [] }
        (discoverRoot env (extIndex platforms) platform_hints r).files = _
    have hst : ({ initSt cat0 with errors := [] ++ [], writes := [] ++ [] } : ScanSt) =
        initSt cat0 := by simp [initSt]
    rw [hst, loop1_fresh_adds env []
      (discoverRoot env (extIndex platforms) platform_hints r).files (initSt cat0)
      hcovall hq hi hfresh hdist]
    simp [initSt]
  have hsome : ∀ f ∈ (discoverRoot env (extIndex platforms) platform_hints r).files,
      (lookupCat (cat0 ++ (discoverRoot env (extIndex platforms) platform_hints r).files.map
        (importEntry env)) (env.canon f.path)).isSome :=
    fun f hf => lookupCat_append_isSome (hfresh f hf)
      (lookupCat_map_importEntry_isSome env hf)
  have ho2 : scan_library env platforms [r]
      (cat0 ++ (discoverRoot env (extIndex platforms) platform_hints r).files.map
        (importEntry env)) =
      ⟨(discoverRoot env (extIndex platforms) platform_hints r).files.length, 0,
        (discoverRoot env (extIndex platforms) platform_hints r).files.length, [],
        cat0 ++ (discoverRoot env (extIndex platforms) platform_hints r).files.map
          (importEntry env), []⟩ := by
    rw [scan_library_single, scanRoot_exists_eq env (extIndex platforms) platform_hints
      (initSt _) r hroot, hpl, hcov]
    show List.foldl (importFileStep env [])
        { initSt _ with errors := [] ++ [], writes := [] ++ [] }
        (discoverRoot env (extIndex platforms) platform_hints r).files = _
    have hst : ({ initSt (cat0 ++
        (discoverRoot env (extIndex platforms) platform_hints r).files.map (importEntry env))
          with errors := [] ++ [], writes := [] ++ [] } : ScanSt) =
        initSt (cat0 ++
          (discoverRoot env (extIndex platforms) platform_hints r).files.map
            (importEntry env)) := by
      simp [initSt]
    rw [hst, loop1_all_present env []
      (discoverRoot env (extIndex platforms) platform_hints r).files (initSt _)
      hcovall hq hsome]
    simp [initSt]
  rw [ho1]
  refine ⟨rfl, ?_, ?_⟩
  · rw [ho2]
  · rw [ho2]

/-- Witness for the amended re-scan idempotence theorem: a root with a
single plain `.cue` file (no disc tag), scanned twice from an empty
catalog. -/
theorem scan_rescan_idempotent_amended_witness :
    (scan_library envId platsCue [⟨"/r", none, true, [⟨"/r", "Solo", some "cue"⟩]⟩] []).writes
        = [] ∧
      (scan_library envId platsCue [⟨"/r", none, true, [⟨"/r", "Solo", some "cue"⟩]⟩]
        (scan_library envId platsCue [⟨"/r", none, true, [⟨"/r", "Solo", some "cue"⟩]⟩]
          []).cat).games_added = 0 ∧
      (scan_library envId platsCue [⟨"/r", none, true, [⟨"/r", "Solo", some "cue"⟩]⟩]
        (scan_library envId platsCue [⟨"/r", none, true, [⟨"/r", "Solo", some "cue"⟩]⟩]
          []).cat).games_updated =
        (scan_library envId platsCue
          [⟨"/r", none, true, [⟨"/r", "Solo", some "cue"⟩]⟩] []).games_added :=
  scan_rescan_idempotent_amended envId platsCue
    ⟨"/r", none, true, [⟨"/r", "Solo", some "cue"⟩]⟩ []
    (by decide) (by decide) (by decide) (by decide) (by decide) (by decide)

/-- **C1 (counterexample).** A two-disc group whose playlist `Game.m3u`
already exists on disk at the computed path: the scan result counts the
playlist once in `gamesFound`, but reconciles it against the catalog
twice — once as a discovered file (added) and once in the
generated-playlist pass (updated) — so it is not counted exactly once
as added-or-updated, refuting the claim. -/
theorem scan_playlist_double_count_cex :
    (scan_library envId platsCue [rootPre] []).games_found = 1 ∧
      (scan_library envId platsCue [rootPre] []).games_added +
        (scan_library envId platsCue [rootPre] []).games_updated = 2 ∧
      (2 : Nat) ≠ 1 := by
  refine ⟨by decide, by decide, by decide⟩

/-- **C1 (amended).** Playlist accounting for a scan whose discovery
yields exactly one disc group of two or more discs, with no failures on
the playlist path and the playlist path absent from the catalog:
if no playlist pre-exists (and every discovered file is a member disc),
the freshly generated playlist contributes exactly one `gamesFound`
unit and exactly one catalog reconciliation (counted as added), and the
covered member discs contribute nothing; if the playlist pre-exists at
the exact computed path, it still contributes exactly one `gamesFound`
unit but is reconciled twice (counted once as added and once more as
updated, totalling two), again with the member discs contributing
nothing and no write to disk. -/
theorem scan_playlist_single_count_amended (env : Env) (platforms : List Platform)
    (r : ScanRoot) (cat0 : Catalog) (d b : String) (ms : List (Nat × String))
    (hroot : r.rootExists = true)
    (hgroups : buildGroups (discoverRoot env (extIndex platforms) platform_hints r).files =
      [((d, b), ms)])
    (hlen : 1 < ms.length)
    (hq : env.queryFails (env.canon (m3uPathOf (d, b))) = false)
    (hi : env.insertFails (env.canon (m3uPathOf (d, b))) = false)
    (hfresh : lookupCat cat0 (env.canon (m3uPathOf (d, b))) = none) :
    ((discoverRoot env (extIndex platforms) platform_hints r).existing = [] →
      (∀ f ∈ (discoverRoot env (extIndex platforms) platform_hints r).files,
        (ms.map (fun x => x.2)).contains f.path = true) →
      env.writeFails (m3uPathOf (d, b)) = false →
      (scan_library env platforms [r] cat0).games_found = 1 ∧
        (scan_library env platforms [r] cat0).games_added = 1 ∧
        (scan_library env platforms [r] cat0).games_updated = 0 ∧
        (scan_library env platforms [r] cat0).writes =
          [(m3uPathOf (d, b), m3uContent ms)]) ∧
    (∀ (l1 l2 : List DiscoveredFile) (fm : DiscoveredFile),
      (discoverRoot env (extIndex platforms) platform_hints r).files = l1 ++ fm :: l2 →
      fm.path = m3uPathOf (d, b) →
      (discoverRoot env (extIndex platforms) platform_hints r).existing =
        [m3uPathOf (d, b)] →
      (∀ f ∈ l1, (ms.map (fun x => x.2)).contains f.path = true) →
      (∀ f ∈ l2, (ms.map (fun x => x.2)).contains f.path = true) →
      (ms.map (fun x => x.2)).contains (m3uPathOf (d, b)) = false →
      (scan_library env platforms [r] cat0).games_found = 1 ∧
        (scan_library env platforms [r] cat0).games_added +
          (scan_library env platforms [r] cat0).games_updated = 2 ∧
        (scan_library env platforms [r] cat0).writes = []) := by
  have hcv : coveredSet [((d, b), ms)] = ms.map (fun x => x.2) := by
    unfold coveredSet
    simp only [List.foldl_cons, List.foldl_nil]
    rw [if_pos hlen]
    simp
  constructor
  · intro hexist hcovall hw
    have hppl : playlistPhase env [] [((d, b), ms)] =
        ⟨[m3uPathOf (d, b)], [], [(m3uPathOf (d, b), m3uContent ms)]⟩ := by
      unfold playlistPhase
      simp only [List.foldl_cons, List.foldl_nil]
      unfold playlistStep
      rw [if_pos hlen, if_neg (by simp), if_neg (by rw [hw]; simp)]
      simp [insertNew]
    rw [scan_library_single, scanRoot_exists_eq env (extIndex platforms) platform_hints
      (initSt cat0) r hroot, hgroups, hexist, hppl, hcv]
    rw [loop1_all_covered env (ms.map (fun x => x.2))
      (discoverRoot env (extIndex platforms) platform_hints r).files _ hcovall]
    have hfin := loop2_fresh_adds env platform_hints [m3uPathOf (d, b)]
      ({ initSt cat0 with
          errors := (initSt cat0).errors ++ ([] : List String)
          writes := (initSt cat0).writes ++ [(m3uPathOf (d, b), m3uContent ms)] })
      (fun p hp => by rcases List.mem_singleton.mp hp with rfl; exact hq)
      (fun p hp => by rcases List.mem_singleton.mp hp with rfl; exact hi)
      (fun p hp => by rcases List.mem_singleton.mp hp with rfl; exact hfresh)
      (List.pairwise_singleton _ _)
    rw [show ((⟨[m3uPathOf (d, b)], [], [(m3uPathOf (d, b), m3uContent ms)]⟩ :
      PlistSt)).generated = [m3uPathOf (d, b)] from rfl] at *
    rw [hfin]
    simp [initSt]
  · intro l1 l2 fm hfiles hfm hexist hcov1 hcov2 hnotin
    have hppl : playlistPhase env [m3uPathOf (d, b)] [((d, b), ms)] =
        ⟨[m3uPathOf (d, b)], [], []⟩ := by
      unfold playlistPhase
      simp only [List.foldl_cons, List.foldl_nil]
      unfold playlistStep
      rw [if_pos hlen, if_pos (by simp)]
      simp [insertNew]
    rw [scan_library_single, scanRoot_exists_eq env (extIndex platforms) platform_hints
      (initSt cat0) r hroot, hgroups, hexist, hppl, hcv, hfiles]
    rw [List.foldl_append, List.foldl_cons]
    simp only [initSt, List.append_nil, List.nil_append]
    rw [loop1_all_covered env (ms.map (fun x => x.2)) l1 _ hcov1]
    rw [List.foldl_cons]
    have hstep : importFileStep env (ms.map (fun x => x.2))
        (⟨0, 0, 0, [], cat0, []⟩ : ScanSt) fm =
        (⟨1, 1, 0, [], cat0 ++ [importEntry env fm], []⟩ : ScanSt) := by
      unfold importFileStep
      rw [hfm]
      simp only [hnotin, hq, hi, hfresh]
      simp [addCat, importEntry, hfm, hfresh]
    rw [hstep]
    rw [loop1_all_covered env (ms.map (fun x => x.2)) l2 _ hcov2]
    have hl : lookupCat (cat0 ++ [importEntry env fm]) (env.canon (m3uPathOf (d, b))) =
        some ⟨clean_rom_title fm.base_name, fm.platform_id⟩ := by
      rw [lookupCat_append_none hfresh]
      unfold importEntry
      rw [hfm, lookupCat_single, if_pos rfl]
    have hfin : importM3uStep env platform_hints
        (⟨1, 1, 0, [], cat0 ++ [importEntry env fm], []⟩ : ScanSt) (m3uPathOf (d, b)) =
        (⟨1, 1, 1, [], cat0 ++ [importEntry env fm], []⟩ : ScanSt) := by
      unfold importM3uStep
      simp only [hq, hl]
      simp
    rw [hfin]
    simp

/-- Witness for the amended playlist-accounting theorem: the fresh
two-disc world, where the generated playlist is found once and added
once with both discs suppressed. -/
theorem scan_playlist_single_count_amended_witness :
    (scan_library envId platsCue [rootFresh] []).games_found = 1 ∧
      (scan_library envId platsCue [rootFresh] []).games_added = 1 ∧
      (scan_library envId platsCue [rootFresh] []).games_updated = 0 ∧
      (scan_library envId platsCue [rootFresh] []).writes =
        [(m3uPathOf ("/r", "Game"),
          m3uContent [(1, "/r/Game (Disc 1).cue"), (2, "/r/Game (Disc 2).cue")])] :=
  (scan_playlist_single_count_amended envId platsCue rootFresh [] "/r" "Game"
    [(1, "/r/Game (Disc 1).cue"), (2, "/r/Game (Disc 2).cue")]
    (by decide) (by decide) (by decide) (by decide) (by decide) (by decide)).1
    (by decide) (by decide) (by decide)

/-- **C6 (counterexample).** A lone disc-numbered file
`Game (USA) (Disc 1).cue` is not suppressed and is imported as a
singleton — but its stored title is `"Game"`, the output of the
ROM-title normalizer, not the disc-tag-stripped base title
`"Game (USA)"` the claim names, refuting the claim's title clause. -/
theorem single_disc_import_cex :
    get_base_game_name "Game (USA) (Disc 1)" = "Game (USA)" ∧
      lookupCat
        (scan_library envId platsCue
          [⟨"/r", none, true, [⟨"/r", "Game (USA) (Disc 1)", some "cue"⟩]⟩] []).cat
        "/r/Game (USA) (Disc 1).cue" = some ⟨"Game", "ps1"⟩ ∧
      ("Game" : String) ≠ "Game (USA)" := by
  refine ⟨by decide, by decide, by decide⟩

/-- **C6 (amended).** A lone disc-numbered discovered file — one whose
path belongs to no disc group of two or more members — is never
covered, its group generates no playlist and records no error, and
(when its canonical path is fresh in the catalog, unique among the
discovered files, and its catalog calls succeed) it is imported as an
ordinary singleton whose stored title is the ROM-title normalizer
`clean_rom_title` applied to its disc-tag-stripped base title. -/
theorem single_disc_import_amended (env : Env) (platforms : List Platform) (r : ScanRoot)
    (cat0 : Catalog) (f : DiscoveredFile)
    (hroot : r.rootExists = true)
    (hf : f ∈ (discoverRoot env (extIndex platforms) platform_hints r).files)
    (hdisc : f.disc_number.isSome)
    (hlone : ∀ g ∈ buildGroups (discoverRoot env (extIndex platforms) platform_hints r).files,
      1 < g.2.length → f.path ∉ g.2.map (fun x => x.2))
    (hq : env.queryFails (env.canon f.path) = false)
    (hi : env.insertFails (env.canon f.path) = false)
    (hfresh : lookupCat cat0 (env.canon f.path) = none)
    (huniq : ∀ g ∈ (discoverRoot env (extIndex platforms) platform_hints r).files,
      env.canon g.path = env.canon f.path → g = f) :
    f.path ∉ coveredSet
        (buildGroups (discoverRoot env (extIndex platforms) platform_hints r).files) ∧
      (∀ g ∈ buildGroups (discoverRoot env (extIndex platforms) platform_hints r).files,
        (∃ n, (n, f.path) ∈ g.2) →
        perGroupWrites env (discoverRoot env (extIndex platforms) platform_hints r).existing
            g = [] ∧
          perGroupErr env (discoverRoot env (extIndex platforms) platform_hints r).existing
            g = []) ∧
      lookupCat (scan_library env platforms [r] cat0).cat (env.canon f.path) =
        some ⟨clean_rom_title f.base_name, f.platform_id⟩ := by
  have hnc : f.path ∉ coveredSet
      (buildGroups (discoverRoot env (extIndex platforms) platform_hints r).files) := by
    intro hp
    rcases (coveredSet_mem _ f.path).mp hp with ⟨g, hg, hlen', hmem⟩
    exact hlone g hg hlen' hmem
  refine ⟨hnc, ?_, ?_⟩
  · intro g hg ⟨n, hmem⟩
    have hle : ¬ 1 < g.2.length := by
      intro hlen'
      exact hlone g hg hlen' (List.mem_map.mpr ⟨(n, f.path), hmem, rfl⟩)
    constructor
    · unfold perGroupWrites
      rw [if_neg hle]
    · unfold perGroupErr
      rw [if_neg hle]
  · have hcovf : (coveredSet
        (buildGroups (discoverRoot env (extIndex platforms) platform_hints r).files)).contains
        f.path = false := by
      simpa using hnc
    rw [scan_library_single, scanRoot_exists_eq env (extIndex platforms) platform_hints
      (initSt cat0) r hroot]
    refine loop2_lookup_some_preserved env platform_hints _ _ ?_
    exact loop1_processes_file env _ _ _ f hf hcovf hq hi hfresh huniq

/-- Witness for the amended lone-disc theorem: a root holding exactly
one `.cue` file with a disc-1 tag and no sibling. -/
theorem single_disc_import_amended_witness :
    ("/r/Solo (Disc 1).cue" : String) ∉ coveredSet
        (buildGroups (discoverRoot envId (extIndex platsCue) platform_hints
          ⟨"/r", none, true, [⟨"/r", "Solo (Disc 1)", some "cue"⟩]⟩).files) ∧
      (∀ g ∈ buildGroups (discoverRoot envId (extIndex platsCue) platform_hints
          ⟨"/r", none, true, [⟨"/r", "Solo (Disc 1)", some "cue"⟩]⟩).files,
        (∃ n, (n, ("/r/Solo (Disc 1).cue" : String)) ∈ g.2) →
        perGroupWrites envId (discoverRoot envId (extIndex platsCue) platform_hints
            ⟨"/r", none, true, [⟨"/r", "Solo (Disc 1)", some "cue"⟩]⟩).existing g = [] ∧
          perGroupErr envId (discoverRoot envId (extIndex platsCue) platform_hints
            ⟨"/r", none, true, [⟨"/r", "Solo (Disc 1)", some "cue"⟩]⟩).existing g = []) ∧
      lookupCat (scan_library envId platsCue
          [⟨"/r", none, true, [⟨"/r", "Solo (Disc 1)", some "cue"⟩]⟩] []).cat
          (envId.canon "/r/Solo (Disc 1).cue") =
        some ⟨clean_rom_title "Solo", "ps1"⟩ :=
  single_disc_import_amended envId platsCue
    ⟨"/r", none, true, [⟨"/r", "Solo (Disc 1)", some "cue"⟩]⟩ []
    ⟨"/r/Solo (Disc 1).cue", ".cue", "ps1", some 1, "Solo"⟩
    (by decide) (by decide) (by decide) (by decide) (by decide) (by decide) (by decide)
    (by decide)

/-- **C9.** For every scan invocation, `games_added ≤ games_found`:
both import loops bump `games_found` whenever they bump `games_added`
(the per-file loop counts every uncovered file as found before
reconciling it; the generated-playlist loop counts found and added
together on a successful insert). -/
theorem scan_games_added_le_games_found (env : Env) (platforms : List Platform)
    (roots : List ScanRoot) (cat0 : Catalog) :
    (scan_library env platforms roots cat0).games_added ≤
      (scan_library env platforms roots cat0).games_found := by
  unfold scan_library
  exact foldl_invariant (fun s => s.games_added ≤ s.games_found) _
    (fun st r h => scanRoot_le env (extIndex platforms) platform_hints st r h) roots
    (initSt cat0) (Nat.le_refl 0)

end RetroVoid

